import Mathlib

/-!
Verification of the nanokoton kernel against its specification.

The definitions below are shallow embeddings of the C++ sources:
machine integers become `Nat` with explicit `% 2 ^ w` where overflow can
occur, fallible operations return `Option`, and stateful code is explicit
state passing.  Each section names the source file and function it embeds.
-/

set_option maxRecDepth 10000

namespace NK

/-- Width of a 64-bit machine word (`usize`). -/
def w64 : Nat := 18446744073709551616

/-- 64-bit wrapping addition (counters in the sources are `usize`). -/
def add64 (a b : Nat) : Nat := (a + b) % w64

/-- 64-bit wrapping subtraction. -/
def sub64 (a b : Nat) : Nat := (a + (w64 - b % w64)) % w64

/-- 32-bit wrapping addition (TCP sequence numbers are `u32`). -/
def add32 (a b : Nat) : Nat := (a + b) % 4294967296

/-- Page size used throughout the kernel. -/
def pageSize : Nat := 4096

/-! ## Physical memory manager

Embeds `PhysicalMemoryManager` from `src/unnamed/part_004` (implementation)
and `src/unnamed/part_007` (header).  A region's bitmap has one bit per
page, `true` meaning allocated. -/

/-- `PhysicalMemoryManager::MemoryRegion`: base physical address, per-page
bitmap (`true` = allocated) and the region-local free-page counter.
`total_pages` is the bitmap length; `size` is `total_pages * PAGE_SIZE`. -/
structure MemoryRegion where
  base : Nat
  bitmap : List Bool
  freePages : Nat
deriving Repr, DecidableEq

/-- Page count of a region (`region.total_pages`). -/
def MemoryRegion.totalPages (r : MemoryRegion) : Nat := r.bitmap.length

/-- Byte size of a region (`region.size`). -/
def MemoryRegion.size (r : MemoryRegion) : Nat := r.bitmap.length * pageSize

/-- The global PMM state: the region list plus the global counters
(`total_pages_`, `free_pages_`, `used_pages_`, `page_frames_allocated_`,
`page_frames_freed_`), all `usize` in the source. -/
structure PMMState where
  regions : List MemoryRegion
  totalPages : Nat
  freePagesCtr : Nat
  usedPagesCtr : Nat
  allocations : Nat
  frees : Nat
deriving Repr, DecidableEq

/-- `region.bitmap->test(page)`: bits outside the bitmap read as clear. -/
def bmTest (bm : List Bool) (page : Nat) : Bool := bm.getD page false

/-- Set `count` bits starting at `start` to `true`
(the allocation loops `for p in [start, start+count) set(p, true)`). -/
def bmSetRun (bm : List Bool) (start count : Nat) : List Bool :=
  (List.range count).foldl (fun b p => b.set (start + p) true) bm

/-- The linear first-fit scan of `PhysicalMemoryManager::allocate_pages`
(lines 283-313): walk the bitmap keeping a run of consecutive clear bits,
resetting the run on a set bit; return the start page of the first run of
length `count`. -/
def findRun (bm : List Bool) (count : Nat) : Nat → Nat → Nat → Nat → Option Nat
  | 0, _, _, _ => none
  | fuel + 1, page, consec, start =>
    if page < bm.length then
      if bmTest bm page then
        findRun bm count fuel (page + 1) 0 start
      else
        let start' := if consec = 0 then page else start
        if consec + 1 = count then some start'
        else findRun bm count fuel (page + 1) (consec + 1) start'
    else none

/-- The `all_free` double check in `allocate_aligned` (lines 355-361). -/
def allFree (bm : List Bool) (start count : Nat) : Bool :=
  (List.range count).all (fun p => !bmTest bm (start + p))

/-- The scan of `PhysicalMemoryManager::allocate_aligned` (lines 344-390):
a page participates in the run only when its absolute address
`base + page * PAGE_SIZE` is a multiple of `align`; a non-aligned page
resets `consecutive_count` to 0 (the `else` branch at line 387), as does a
set bit.  When the run reaches `count` the `all_free` recheck runs; on
failure the scan continues with the run intact (no reset in the source). -/
def findAlignedRun (base : Nat) (bm : List Bool) (count align : Nat) :
    Nat → Nat → Nat → Nat → Option Nat
  | 0, _, _, _ => none
  | fuel + 1, page, consec, start =>
    if page < bm.length then
      if (base + page * pageSize) % align = 0 then
        if bmTest bm page then
          findAlignedRun base bm count align fuel (page + 1) 0 start
        else
          let start' := if consec = 0 then page else start
          if consec + 1 = count then
            if allFree bm start' count then some start'
            else findAlignedRun base bm count align fuel (page + 1) (consec + 1) start'
          else findAlignedRun base bm count align fuel (page + 1) (consec + 1) start'
      else findAlignedRun base bm count align fuel (page + 1) 0 start
    else none

/-- Region-list part of `allocate_pages`: iterate regions in order,
skipping a region whose stored `free_pages` counter is below `count`;
in the first region whose scan succeeds, set the bits and adjust the
region counter.  Returns the updated list and the physical address. -/
def allocInRegions (count : Nat) : List MemoryRegion → Option (List MemoryRegion × Nat)
  | [] => none
  | r :: rest =>
    if r.freePages < count then
      (allocInRegions count rest).map (fun p => (r :: p.1, p.2))
    else
      match findRun r.bitmap count r.bitmap.length 0 0 0 with
      | some start =>
          some ({ r with bitmap := bmSetRun r.bitmap start count,
                         freePages := r.freePages - count } :: rest,
                r.base + start * pageSize)
      | none => (allocInRegions count rest).map (fun p => (r :: p.1, p.2))

/-- Region-list part of `allocate_aligned`, same shape with the aligned scan. -/
def allocAlignedInRegions (count align : Nat) :
    List MemoryRegion → Option (List MemoryRegion × Nat)
  | [] => none
  | r :: rest =>
    if r.freePages < count then
      (allocAlignedInRegions count align rest).map (fun p => (r :: p.1, p.2))
    else
      match findAlignedRun r.base r.bitmap count align r.bitmap.length 0 0 0 with
      | some start =>
          some ({ r with bitmap := bmSetRun r.bitmap start count,
                         freePages := r.freePages - count } :: rest,
                r.base + start * pageSize)
      | none => (allocAlignedInRegions count align rest).map (fun p => (r :: p.1, p.2))

/-- `PhysicalMemoryManager::allocate_pages(count)` (lines 266-320):
returns the new state and the address, or `none` for `count = 0` or
out-of-memory.  On success the global counters move by `count`. -/
def allocatePages (s : PMMState) (count : Nat) : Option (PMMState × Nat) :=
  if count = 0 then none
  else
    (allocInRegions count s.regions).map fun p =>
      ({ s with regions := p.1,
                freePagesCtr := sub64 s.freePagesCtr count,
                usedPagesCtr := add64 s.usedPagesCtr count,
                allocations := add64 s.allocations count }, p.2)

/-- `PhysicalMemoryManager::allocate_aligned(count, alignment)`
(lines 322-398).  The alignment is first clamped to at least the page size
and rounded up to a page-size multiple. -/
def allocateAligned (s : PMMState) (count align : Nat) : Option (PMMState × Nat) :=
  if count = 0 then none
  else
    let a1 := max align pageSize
    let a2 := if a1 % pageSize = 0 then a1 else (a1 + pageSize - 1) / pageSize * pageSize
    (allocAlignedInRegions count a2 s.regions).map fun p =>
      ({ s with regions := p.1,
                freePagesCtr := sub64 s.freePagesCtr count,
                usedPagesCtr := add64 s.usedPagesCtr count,
                allocations := add64 s.allocations count }, p.2)

/-- The per-range loop of `PhysicalMemoryManager::free_pages`
(lines 472-482): clear each bit that was set; a clear bit is only logged
(double free) and left unchanged. -/
def bmClearRun (bm : List Bool) (start count : Nat) : List Bool :=
  (List.range count).foldl
    (fun b p => if bmTest b (start + p) then b.set (start + p) false else b) bm

/-- Region-list part of `free_pages(base, count)` (lines 459-496): the
first region containing `base` is processed and the function returns.
Result: updated regions paired with `true` exactly when the bits were
cleared and the counters must move (the in-range case); out-of-range and
unknown addresses change nothing.  Note the source adds `count` to the
free counters whether or not any bit was actually set. -/
def freeRangeInRegions (base count : Nat) :
    List MemoryRegion → List MemoryRegion × Bool
  | [] => ([], false)
  | r :: rest =>
    if r.base ≤ base ∧ base < r.base + r.size then
      let startPage := (base - r.base) / pageSize
      if startPage + count > r.totalPages then (r :: rest, false)
      else
        ({ r with bitmap := bmClearRun r.bitmap startPage count,
                  freePages := r.freePages + count } :: rest, true)
    else
      let p := freeRangeInRegions base count rest
      (r :: p.1, p.2)

/-- `PhysicalMemoryManager::free_pages(base, count)` (lines 446-500). -/
def freePagesOp (s : PMMState) (base count : Nat) : PMMState :=
  if base % pageSize ≠ 0 then s
  else if count = 0 then s
  else
    let p := freeRangeInRegions base count s.regions
    if p.2 then
      { s with regions := p.1,
               freePagesCtr := add64 s.freePagesCtr count,
               usedPagesCtr := sub64 s.usedPagesCtr count,
               frees := add64 s.frees count }
    else { s with regions := p.1 }

/-- Total number of clear bits over all region bitmaps: what the spec's
`free_pages` counter is supposed to equal. -/
def totalClearBits (s : PMMState) : Nat :=
  (s.regions.map (fun r => r.bitmap.countP (fun b => !b))).sum

/-- `PhysicalMemoryManager::is_page_free` (lines 536-547). -/
def isPageFree (s : PMMState) (page : Nat) : Bool :=
  go s.regions
where
  go : List MemoryRegion → Bool
    | [] => false
    | r :: rest =>
      if r.base ≤ page ∧ page < r.base + r.size then
        !bmTest r.bitmap ((page - r.base) / pageSize)
      else go rest

/-- `PhysicalMemoryManager::is_page_allocated` (lines 549-560). -/
def isPageAllocated (s : PMMState) (page : Nat) : Bool :=
  go s.regions
where
  go : List MemoryRegion → Bool
    | [] => false
    | r :: rest =>
      if r.base ≤ page ∧ page < r.base + r.size then
        bmTest r.bitmap ((page - r.base) / pageSize)
      else go rest

/-- C3 test state: one region at physical 0x100000 with 4 entirely free
pages.  Page 0 sits at 0x100000, a multiple of 8192. -/
def c3State : PMMState :=
  { regions := [{ base := 1048576, bitmap := [false, false, false, false], freePages := 4 }],
    totalPages := 4, freePagesCtr := 4, usedPagesCtr := 0, allocations := 0, frees := 0 }

/-- C7 trace: region of 2 pages, allocate both, free the range twice
(the second free of the same range is the double free of the claim). -/
def c7State : PMMState :=
  let s0 : PMMState :=
    { regions := [{ base := 1048576, bitmap := [false, false], freePages := 2 }],
      totalPages := 2, freePagesCtr := 2, usedPagesCtr := 0, allocations := 0, frees := 0 }
  let s1 := ((allocatePages s0 2).map Prod.fst).getD s0
  let s2 := freePagesOp s1 1048576 2
  freePagesOp s2 1048576 2

/-! ## TCP socket

Embeds `TCPSocket` from `src/unnamed/part_002` (implementation) and
`src/unnamed/part_006` (header `tcp.hpp`).  Sequence numbers are `u32`;
additions wrap via `add32`.  `send_segment` serializes a segment and hands
it to the IP layer; the embedding logs the segment (oldest first) since
the wire bytes play no role in the claims. -/

inductive TCPState where
  | Closed | Listen | SynSent | SynReceived | Established
  | FinWait1 | FinWait2 | CloseWait | Closing | LastAck | TimeWait
deriving Repr, DecidableEq

/-- `TCPSegment` (tcp.hpp lines 59-69), without the timestamp field,
which no claim observes. -/
structure TCPSegment where
  seqNum : Nat
  ackNum : Nat
  windowSize : Nat
  syn : Bool
  ack : Bool
  fin : Bool
  rst : Bool
  data : List Nat
deriving Repr, DecidableEq

/-- `TCPSocket::SendBuffer` (tcp.hpp lines 73-79). -/
structure SendBuf where
  seqStart : Nat
  seqEnd : Nat
  data : List Nat
  timestamp : Nat
  acknowledged : Bool
deriving Repr, DecidableEq

/-- `TCPSocket::ReceiveBuffer` (tcp.hpp lines 81-86). -/
structure RecvBuf where
  seqStart : Nat
  seqEnd : Nat
  data : List Nat
  consumed : Bool
deriving Repr, DecidableEq

/-- Capacity of the in-order byte ring (`receive_queue_(8192)`). -/
def tcpQueueCapacity : Nat := 8192

/-- The mutable fields of `TCPSocket` the claims observe, plus a log of
every segment passed to `send_segment` (oldest first). -/
structure TCPSocket where
  state : TCPState
  sendSeq : Nat
  recvSeq : Nat
  sendUna : Nat
  recvNext : Nat
  sendWindow : Nat
  recvWindow : Nat
  sendBuffers : List SendBuf
  recvBuffers : List RecvBuf
  recvQueue : List Nat
  retransmitTimeout : Nat
  retransmitCount : Nat
  sent : List TCPSegment
deriving Repr, DecidableEq

/-- A socket as built by the `TCPSocket` constructor (part_002 lines 9-25). -/
def TCPSocket.fresh : TCPSocket :=
  { state := .Closed, sendSeq := 0, recvSeq := 0, sendUna := 0, recvNext := 0,
    sendWindow := 65535, recvWindow := 65535, sendBuffers := [], recvBuffers := [],
    recvQueue := [], retransmitTimeout := 1000000, retransmitCount := 0, sent := [] }

/-- Log a call to `TCPSocket::send_segment` (the IP send always succeeds
in the embedding). -/
def TCPSocket.sendSeg (sock : TCPSocket) (seg : TCPSegment) : TCPSocket :=
  { sock with sent := sock.sent ++ [seg] }

/-- `TCPSocket::validate_sequence` (lines 489-500); `u32` comparisons. -/
def TCPSocket.validSeq (sock : TCPSocket) (seq len : Nat) : Bool :=
  if len = 0 then true
  else decide (seq ≥ sock.recvSeq ∧ add32 seq len ≤ add32 sock.recvSeq sock.recvWindow)

/-- `TCPSocket::process_syn` (lines 365-386). -/
def TCPSocket.processSyn (sock : TCPSocket) (seg : TCPSegment) : TCPSocket :=
  if sock.state = .Listen then
    let rs := add32 seg.seqNum 1
    let s1 := { sock with state := .SynReceived, recvSeq := rs, recvNext := rs }
    let synAck : TCPSegment :=
      { seqNum := s1.sendSeq, ackNum := rs, windowSize := s1.recvWindow,
        syn := true, ack := true, fin := false, rst := false, data := [] }
    let s2 := s1.sendSeg synAck
    { s2 with sendSeq := add32 s2.sendSeq 1 }
  else sock

/-- `TCPSocket::acknowledge_data` (lines 476-483). -/
def TCPSocket.acknowledgeData (sock : TCPSocket) (ackNum : Nat) : TCPSocket :=
  { sock with
      sendBuffers := sock.sendBuffers.map
        (fun b => if b.seqEnd ≤ ackNum then { b with acknowledged := true } else b),
      sendUna := ackNum }

/-- `TCPSocket::process_ack` (lines 388-396); no state transition occurs. -/
def TCPSocket.processAck (sock : TCPSocket) (seg : TCPSegment) : TCPSocket :=
  let s1 := if seg.ackNum > sock.sendUna then sock.acknowledgeData seg.ackNum else sock
  if seg.windowSize ≠ s1.sendWindow then { s1 with sendWindow := seg.windowSize } else s1

/-- `TCPSocket::process_fin` (lines 398-415). -/
def TCPSocket.processFin (sock : TCPSocket) (_seg : TCPSegment) : TCPSocket :=
  if sock.state = .Established then
    let s1 := { sock with state := .CloseWait, recvSeq := add32 sock.recvSeq 1 }
    s1.sendSeg { seqNum := s1.sendSeq, ackNum := s1.recvSeq, windowSize := s1.recvWindow,
                 syn := false, ack := true, fin := false, rst := false, data := [] }
  else sock

/-- `TCPSocket::process_rst` (lines 417-419). -/
def TCPSocket.processRst (sock : TCPSocket) (_seg : TCPSegment) : TCPSocket :=
  { sock with state := .Closed }

/-- Push bytes into the ring, dropping bytes once the ring is full
(`reorder_buffers`, lines 510-515). -/
def pushBytes (queue : List Nat) (data : List Nat) : List Nat :=
  data.foldl (fun q byte => if q.length ≥ tcpQueueCapacity then q else q ++ [byte]) queue

/-- Insert a receive buffer by ascending `sequence_start` (the comparator
of the `sort` call at lines 503-506). -/
def insertByStart (b : RecvBuf) : List RecvBuf → List RecvBuf
  | [] => [b]
  | c :: rest =>
      if b.seqStart ≤ c.seqStart then b :: c :: rest else c :: insertByStart b rest

/-- Sort receive buffers by `sequence_start`. -/
def sortByStart : List RecvBuf → List RecvBuf
  | [] => []
  | b :: rest => insertByStart b (sortByStart rest)

/-- The drain pass of `TCPSocket::reorder_buffers` (lines 508-519): walk
the sorted buffers; each unconsumed buffer starting exactly at
`receive_next_expected_` is pushed into the ring (until full), marked
consumed, and advances `receive_next_expected_` to its `sequence_end`. -/
def drainBuffers : List RecvBuf → Nat → List Nat → List RecvBuf × Nat × List Nat
  | [], next, queue => ([], next, queue)
  | b :: rest, next, queue =>
      if b.seqStart = next ∧ !b.consumed then
        let queue' := pushBytes queue b.data
        let r := drainBuffers rest b.seqEnd queue'
        ({ b with consumed := true } :: r.1, r.2.1, r.2.2)
      else
        let r := drainBuffers rest next queue
        (b :: r.1, r.2.1, r.2.2)

/-- `TCPSocket::reorder_buffers` (lines 502-520). -/
def TCPSocket.reorderBuffers (sock : TCPSocket) : TCPSocket :=
  let sorted := sortByStart sock.recvBuffers
  let r := drainBuffers sorted sock.recvNext sock.recvQueue
  { sock with recvBuffers := r.1, recvNext := r.2.1, recvQueue := r.2.2 }

/-- `TCPSocket::process_data` (lines 421-444): buffer the segment,
reorder, advance `receive_sequence_`, and acknowledge with
`ack = sequence_number + data.size()`. -/
def TCPSocket.processData (sock : TCPSocket) (seg : TCPSegment) : TCPSocket :=
  let buf : RecvBuf :=
    { seqStart := seg.seqNum, seqEnd := add32 seg.seqNum seg.data.length,
      data := seg.data, consumed := false }
  let s1 := { sock with recvBuffers := sock.recvBuffers ++ [buf] }
  let s2 := s1.reorderBuffers
  let s3 := { s2 with recvSeq := add32 seg.seqNum seg.data.length }
  s3.sendSeg { seqNum := s3.sendSeq, ackNum := s3.recvSeq, windowSize := s3.recvWindow,
               syn := false, ack := true, fin := false, rst := false, data := [] }

/-- `TCPSocket::receive_segment` (lines 344-363): validate, then dispatch
on the first set flag (`syn`, else `ack`, else `fin`, else `rst`, else
nonempty data). -/
def TCPSocket.receiveSegment (sock : TCPSocket) (seg : TCPSegment) : TCPSocket × Bool :=
  if !sock.validSeq seg.seqNum seg.data.length then (sock, false)
  else
    let s :=
      if seg.syn then sock.processSyn seg
      else if seg.ack then sock.processAck seg
      else if seg.fin then sock.processFin seg
      else if seg.rst then sock.processRst seg
      else if seg.data.length > 0 then sock.processData seg
      else sock
    (s, true)

/-- `TCPSocket::abort` (lines 240-266): enter `Closed` and send a RST. -/
def TCPSocket.abortConn (sock : TCPSocket) : TCPSocket :=
  if sock.state = .Closed then sock
  else
    let s1 := { sock with state := .Closed }
    s1.sendSeg { seqNum := s1.sendSeq, ackNum := s1.recvNext, windowSize := 0,
                 syn := false, ack := false, fin := false, rst := true, data := [] }

/-- Retransmission eligibility (the guard at lines 450-451): the buffer
is unacknowledged and `current_time - buffer.timestamp` (`u64` wrap)
exceeds `retransmit_timeout_`. -/
def eligibleRetx (now timeout : Nat) (b : SendBuf) : Bool :=
  !b.acknowledged && decide (sub64 now b.timestamp > timeout)

/-- The loop of `TCPSocket::retransmit_pending_data` (lines 446-474) as a
pure function of the socket-wide `retransmit_count_` and the buffer list.
Returns (updated buffers, seq numbers re-sent in order, final count,
aborted?).  The abort fires at the start of handling an eligible buffer
once the count exceeds 10 and stops the loop. -/
def retxLoop (now timeout : Nat) : Nat → List SendBuf → List SendBuf × List Nat × Nat × Bool
  | count, [] => ([], [], count, false)
  | count, b :: rest =>
      if eligibleRetx now timeout b then
        if count > 10 then (b :: rest, [], count, true)
        else
          let r := retxLoop now timeout (count + 1) rest
          ({ b with timestamp := now } :: r.1, b.seqStart :: r.2.1, r.2.2.1, r.2.2.2)
      else
        let r := retxLoop now timeout count rest
        (b :: r.1, r.2.1, r.2.2.1, r.2.2.2)

/-- `TCPSocket::retransmit_pending_data` at socket level: run the loop,
log one segment per re-sent buffer, and abort the connection when the
loop hit the counter limit. -/
def TCPSocket.retransmitPendingData (sock : TCPSocket) (now : Nat) : TCPSocket :=
  let r := retxLoop now sock.retransmitTimeout sock.retransmitCount sock.sendBuffers
  let resent := r.2.1.map fun seqStart =>
    ({ seqNum := seqStart, ackNum := sock.recvNext, windowSize := sock.recvWindow,
       syn := false, ack := true, fin := false, rst := false, data := [] } : TCPSegment)
  let s1 := { sock with sendBuffers := r.1, retransmitCount := r.2.2.1,
                        sent := sock.sent ++ resent }
  if r.2.2.2 then s1.abortConn else s1

/-- `TCPSocket::cleanup_acknowledged_data` (lines 522-536). -/
def TCPSocket.cleanupAcknowledged (sock : TCPSocket) : TCPSocket :=
  { sock with sendBuffers := sock.sendBuffers.filter (fun b => !b.acknowledged),
              recvBuffers := sock.recvBuffers.filter (fun b => !b.consumed) }

/-- `TCPSocket::poll` (lines 268-280): retransmit when Established, then
reap acknowledged/consumed buffers, then reorder. -/
def TCPSocket.poll (sock : TCPSocket) (now : Nat) : TCPSocket :=
  let s1 := if sock.state = .Established then sock.retransmitPendingData now else sock
  s1.cleanupAcknowledged.reorderBuffers

/-- The polling loop of `TCPSocket::receive` (lines 170-181) with an
explicit iteration counter `k` and fuel.  One loop iteration costs `step`
TSC cycles, so the `k`-th check reads `current_time - start_time = k * step`;
`none` means the call has not returned within `fuel` iterations.  With
`timeout_ms = 0` the elapsed-time check is skipped entirely. -/
def tcpRecvLoop (sock : TCPSocket) (size timeoutMs step : Nat) :
    Nat → Nat → Option (TCPSocket × Nat)
  | _, 0 => none
  | k, fuel + 1 =>
      if sock.recvQueue.length = 0 then
        if timeoutMs ≠ 0 ∧ k * step > timeoutMs * 1000000 then some (sock, 0)
        else tcpRecvLoop sock size timeoutMs step (k + 1) fuel
      else
        let toRead := min size sock.recvQueue.length
        let q' := sock.recvQueue.drop toRead
        let s1 := { sock with recvQueue := q',
                              recvWindow := tcpQueueCapacity - q'.length }
        let s2 :=
          if toRead > 0 then
            s1.sendSeg { seqNum := s1.sendSeq, ackNum := s1.recvNext,
                         windowSize := s1.recvWindow, syn := false, ack := true,
                         fin := false, rst := false, data := [] }
          else s1
        some (s2, toRead)

/-- `TCPSocket::receive` (lines 160-205): returns 0 immediately unless
the socket is Established, otherwise enters the polling loop. -/
def TCPSocket.receiveCall (sock : TCPSocket) (size timeoutMs step fuel : Nat) :
    Option (TCPSocket × Nat) :=
  if sock.state ≠ .Established then some (sock, 0)
  else tcpRecvLoop sock size timeoutMs step 0 fuel

/-! ## UDP and Ethernet blocking receive

Embeds `UDPSocket::receive_from` (`src/kernel/net/udp.cc` lines 98-137)
and `EthernetDevice::receive` (`src/kernel/net/ethernet.cc` lines
395-442).  The loops are modelled with the same iteration/fuel convention
as `tcpRecvLoop`. -/

/-- `UDPDatagram` as queued per socket (source address/port and bytes). -/
structure UDPDatagram where
  sourceAddress : Nat
  sourcePort : Nat
  data : List Nat
deriving Repr, DecidableEq

/-- The polling loop of `UDPSocket::receive_from` (lines 109-120): while
the queue is empty, check the timeout only when `timeout_ms != 0`, then
pause; on data, pop the front datagram and copy
`min(size, datagram.data.size())` bytes. -/
def udpRecvLoop (queue : List UDPDatagram) (size timeoutMs step : Nat) :
    Nat → Nat → Option Nat
  | _, 0 => none
  | k, fuel + 1 =>
      match queue with
      | [] =>
          if timeoutMs ≠ 0 ∧ k * step > timeoutMs * 1000000 then some 0
          else udpRecvLoop queue size timeoutMs step (k + 1) fuel
      | d :: _ => some (min size d.data.length)

/-- `UDPSocket::receive_from` (lines 98-137): unbound sockets return 0 at
once; otherwise the polling loop runs. -/
def udpReceiveFrom (bound : Bool) (queue : List UDPDatagram)
    (size timeoutMs step fuel : Nat) : Option Nat :=
  if !bound then some 0
  else udpRecvLoop queue size timeoutMs step 0 fuel

/-- The polling loop of `EthernetDevice::receive` (lines 405-439): when
the current RX descriptor has its DD status bit set, the packet of
`desc.length - 4` bytes is copied out (`false` when it exceeds the caller
buffer); otherwise the timeout is checked only when `timeout_ms != 0`.
`rxReady`/`descLength` describe the current descriptor, `bufSize` the
caller's buffer. -/
def ethRecvLoop (rxReady : Bool) (descLength bufSize timeoutMs step : Nat) :
    Nat → Nat → Option Bool
  | _, 0 => none
  | k, fuel + 1 =>
      if rxReady then
        if descLength - 4 > bufSize then some false else some true
      else if timeoutMs ≠ 0 ∧ k * step > timeoutMs * 1000000 then some false
      else ethRecvLoop rxReady descLength bufSize timeoutMs step (k + 1) fuel

/-- `EthernetDevice::receive` entry (null-pointer guards dropped: the
embedding always passes a buffer). -/
def ethReceive (rxReady : Bool) (descLength bufSize timeoutMs step fuel : Nat) :
    Option Bool :=
  ethRecvLoop rxReady descLength bufSize timeoutMs step 0 fuel

/-! ## Scheduler

Embeds `Scheduler` from `src/kernel/mm/vitural.cc` lines 1068-1601 and
`Thread` state handling from the same file (`should_wake_up`, line 674:
sleeping and `current_time >= sleep_until_`).  The scheduling policy is
the constructor default `RoundRobin`, under which `calculate_time_slice`
returns the default slice and `calculate_priority` returns band 1.
Run queues hold thread ids; the thread table maps id to its record. -/

inductive ThreadState where
  | Created | Ready | Running | Blocked | Sleeping | Dead
deriving Repr, DecidableEq

/-- The per-thread fields the scheduler reads: state, wake time, and
whether `get_process()` yields a live (non-dead, non-zombie) process. -/
structure SchedThread where
  tstate : ThreadState
  sleepUntil : Nat
  procAlive : Bool
deriving Repr, DecidableEq

/-- `Scheduler::RunQueue` (scheduler.hpp lines 29-34): thread list plus
the rotating cursor. -/
structure RunQueue where
  threads : List Nat
  currentIndex : Nat
deriving Repr, DecidableEq

/-- Scheduler state: the four bands, the thread table, current/idle
thread ids, the last-switch timestamp, the default slice, and a log of
every `switch_to_thread` target (oldest first) standing in for the
dispatch sequence. -/
structure SchedState where
  queues : List RunQueue
  table : List (Nat × SchedThread)
  currentId : Nat
  idleId : Nat
  lastScheduleTime : Nat
  timeSliceDefault : Nat
  timerTicks : Nat
  dispatched : List Nat
deriving Repr, DecidableEq

/-- Thread-table lookup (a null pointer becomes a failed lookup). -/
def lookupThread (table : List (Nat × SchedThread)) (id : Nat) : Option SchedThread :=
  (table.find? (fun p => p.1 = id)).map Prod.snd

/-- Update one thread in the table. -/
def setThread (table : List (Nat × SchedThread)) (id : Nat) (t : SchedThread) :
    List (Nat × SchedThread) :=
  table.map (fun p => if p.1 = id then (id, t) else p)

/-- `Scheduler::validate_thread` (lines 1321-1336). -/
def validateThread (table : List (Nat × SchedThread)) (id : Nat) : Bool :=
  match lookupThread table id with
  | none => false
  | some t => t.tstate ≠ .Dead && t.procAlive

/-- `Scheduler::cleanup_dead_threads` (lines 1338-1352): remove Dead
threads from every queue (the current thread falls back to idle when it
was one of them) and destroy them. -/
def cleanupDeadThreads (s : SchedState) : SchedState :=
  let isDead := fun id => match lookupThread s.table id with
    | some t => t.tstate = ThreadState.Dead
    | none => false
  let deadCurrent := s.queues.any (fun q => q.threads.any (fun id => isDead id && id = s.currentId))
  { s with queues := s.queues.map (fun q => { q with threads := q.threads.filter (fun id => !isDead id) }),
           table := s.table.filter (fun p => !(s.queues.any (fun q => q.threads.contains p.1) && isDead p.1)),
           currentId := if deadCurrent then s.idleId else s.currentId }

/-- The inner band scan of `Scheduler::select_next_thread` (lines
1250-1268): starting at the cursor, rotate through the band; skip
invalid/non-Ready threads, wake a sleeping thread whose wake time is due
(returning it), and return the first Ready thread.  Returns the updated
table, the updated cursor, and the chosen id if any. -/
def scanBand (table : List (Nat × SchedThread)) (threads : List Nat) (now : Nat) :
    Nat → Nat → List (Nat × SchedThread) × Nat × Option Nat
  | idx, 0 => (table, idx, none)
  | idx, steps + 1 =>
      match threads.get? idx with
      | none => (table, idx, none)
      | some id =>
          let idx' := (idx + 1) % threads.length
          if validateThread table id then
            match lookupThread table id with
            | some t =>
                if t.tstate = .Ready then (table, idx', some id)
                else if t.tstate = .Sleeping ∧ now ≥ t.sleepUntil then
                  (setThread table id { t with tstate := .Ready }, idx', some id)
                else scanBand table threads now idx' steps
            | none => scanBand table threads now idx' steps
          else scanBand table threads now idx' steps

/-- `Scheduler::select_next_thread` (lines 1238-1272): reap dead threads,
then scan the bands in ascending priority; if no band yields a thread,
return the idle thread. -/
def selectNextThread (s : SchedState) (now : Nat) : SchedState × Nat :=
  let s := cleanupDeadThreads s
  go s now 0 s.queues.length
where
  /-- Band loop; the fuel starts at the band count, so `i` covers every
  band exactly once as in the `for` loop of the source. -/
  go (s : SchedState) (now i : Nat) : Nat → SchedState × Nat
    | 0 => (s, s.idleId)
    | n + 1 =>
      match s.queues.get? i with
      | none => (s, s.idleId)
      | some q =>
        if q.threads.isEmpty then go s now (i + 1) n
        else
          let idx0 := q.currentIndex % q.threads.length
          let r := scanBand s.table q.threads now idx0 q.threads.length
          let s' := { s with table := r.1,
                             queues := s.queues.set i { q with currentIndex := r.2.1 } }
          match r.2.2 with
          | some id => (s', id)
          | none => go s' now (i + 1) n

/-- `Scheduler::add_thread` (lines 1151-1171): validate, take band
`calculate_priority` (band 1 under RoundRobin, clamped), mark the thread
Ready, and append it to the band. -/
def addThread (s : SchedState) (id : Nat) : SchedState :=
  if !validateThread s.table id then s
  else
    let priority := min 1 (s.queues.length - 1)
    let tbl := match lookupThread s.table id with
      | some t => setThread s.table id { t with tstate := .Ready }
      | none => s.table
    { s with table := tbl,
             queues := s.queues.mapIdx (fun i q =>
               if i = priority then { q with threads := q.threads ++ [id] } else q) }

/-- `Scheduler::switch_to_thread` (lines 1417-1459): no-op on the current
thread; otherwise re-enqueue the old thread if it was Running, mark the
target Running, stamp the switch time, and log the dispatch. -/
def switchToThread (s : SchedState) (id now : Nat) : SchedState :=
  if id = s.currentId then s
  else
    let old := s.currentId
    let s1 := { s with currentId := id }
    let s2 :=
      if old ≠ s.idleId then
        match lookupThread s1.table old with
        | some t =>
            if t.tstate = .Running then
              addThread { s1 with table := setThread s1.table old { t with tstate := .Ready } } old
            else s1
        | none => s1
      else s1
    let s3 :=
      match lookupThread s2.table id with
      | some t => { s2 with table := setThread s2.table id { t with tstate := .Running } }
      | none => s2
    { s3 with lastScheduleTime := now, dispatched := s3.dispatched ++ [id] }

/-- `Scheduler::handle_timer_tick` (lines 1293-1319): bump the tick
count; only when the current thread is not the idle thread and its slice
has expired does selection run; then wake due sleepers and reap the dead.
`calculate_time_slice` under RoundRobin is the default slice. -/
def handleTimerTick (s : SchedState) (now : Nat) : SchedState :=
  let s0 := { s with timerTicks := s.timerTicks + 1 }
  let s1 :=
    if s0.currentId ≠ s0.idleId then
      if now - s0.lastScheduleTime > s0.timeSliceDefault then
        let r := selectNextThread s0 now
        if r.2 ≠ r.1.currentId then switchToThread r.1 r.2 now else r.1
      else s0
    else s0
  let s2 := { s1 with table := s1.table.map (fun p =>
    if p.2.tstate = .Sleeping ∧ now ≥ p.2.sleepUntil then
      (p.1, { p.2 with tstate := ThreadState.Ready }) else p) }
  cleanupDeadThreads s2

/-! ## AHCI read path

Embeds `AHCIController::read_sectors` from `src/kernel/drivers/ahci.cc`
lines 709-818 down to the point where the command is issued: the checks,
the PRDT scatter/gather construction, and the command-header fields.
256 KiB = 0x40000 = 262144. -/

/-- The fields of `AHCIController::PortInfo` (ahci.hpp lines 197-208)
that `read_sectors` reads. -/
structure PortInfo where
  initialized : Bool
  sectorCount : Nat
  sectorSize : Nat
  supports48bit : Bool
deriving Repr, DecidableEq

/-- `HBACommandTable::HBAPRDTEntry` (ahci.hpp lines 71-77): data address,
the `byte_count` field (holds length minus one), and the
interrupt-on-completion bit. -/
structure PRDTEntry where
  dataBase : Nat
  byteCount : Nat
  interruptOnCompletion : Bool
deriving Repr, DecidableEq

/-- Outcome of `read_sectors`: failure, the `count == 0` early success
(no command is issued), or an issued command described by its PRDT
entries, the header's `prdt_length`, and the FIS command byte. -/
inductive ReadResult where
  | fail
  | noTransfer
  | cmd (entries : List PRDTEntry) (prdtLength : Nat) (command : Nat)
deriving Repr, DecidableEq

/-- The PRDT loop of `read_sectors` (lines 800-810): entry `i` covers
`min(remaining, 0x40000)` bytes, stores that length minus one in
`byte_count`, and sets `interrupt_on_completion` only for
`i = prdt_entries_needed - 1`. -/
def buildPrdt (needed : Nat) : Nat → Nat → Nat → Nat → List PRDTEntry
  | 0, _, _, _ => []
  | fuel + 1, phys, remaining, i =>
    if i < needed ∧ remaining > 0 then
      let chunk := min remaining 262144
      { dataBase := phys, byteCount := chunk - 1,
        interruptOnCompletion := decide (i = needed - 1) }
        :: buildPrdt needed fuel (phys + chunk) (remaining - chunk) (i + 1)
    else []

/-- `AHCIController::read_sectors(port, lba, count, buf)` (lines 709-818).
`portValid` is the `port_number < ports_.size()` check; `bufPhys` is what
`get_physical_address` returned for the caller's buffer (0 on failure). -/
def readSectors (portValid : Bool) (info : PortInfo) (lba count bufPhys : Nat) :
    ReadResult :=
  if !portValid then .fail
  else if !info.initialized then .fail
  else if lba + count > info.sectorCount then .fail
  else if count = 0 then .noTransfer
  else if bufPhys = 0 then .fail
  else
    let totalBytes := count * info.sectorSize
    let needed := (totalBytes + 262144 - 1) / 262144
    if needed > 8 then .fail
    else .cmd (buildPrdt needed needed bufPhys totalBytes 0) needed
              (if info.supports48bit then 37 else 32)

/-! ## IP fragment reassembly

Embeds `IPLayer::process_fragment` from `src/unnamed/part_001` lines
103-196 for one reassembly key (the claim fixes a single
(src, dst, id, proto) key, and the key computation maps all such
fragments to the same buffer).  A fragment is `(offset, MF, payload)`
with the byte offset already scaled by 8 (line 135) and the payload
already stripped of the IP header (lines 138-139).

The buffer's `fragments` container is declared
`HashMap<u16, Vector<u8>>` in `ip.hpp` line 96, but `lib/hashmap.hpp` is
not part of the sources.  Modelled from the spec: §4.G states the buffer
"stores a sorted map offset→bytes", and the completeness walk at lines
155-162 requires ascending-offset iteration, so the map is embedded as an
association list sorted by offset.  The 30-second reaper
(`reassemble_packets`) runs only from `poll` and is not interposed
between the fragment arrivals of the claim. -/

/-- One arriving fragment: offset, more-fragments flag, payload bytes. -/
abbrev Frag : Type := Nat × Bool × List Nat

/-- Sorted-map insert with overwrite (`buffer->fragments[offset] = data`). -/
def insertFrag (off : Nat) (data : List Nat) :
    List (Nat × List Nat) → List (Nat × List Nat)
  | [] => [(off, data)]
  | (o, d) :: rest =>
      if off = o then (off, data) :: rest
      else if off < o then (off, data) :: (o, d) :: rest
      else (o, d) :: insertFrag off data rest

/-- `IPLayer::FragmentBuffer` (ip.hpp lines 91-101) for one key:
the offset-sorted fragment map, `total_length` (0 until the MF=0
fragment arrives), and `received_length`. -/
structure FragBuf where
  fragments : List (Nat × List Nat)
  totalLength : Nat
  receivedLength : Nat
deriving Repr, DecidableEq

/-- Reassembly state for the key: the live buffer, if any, and the
packets handed to the registered protocol handler (lines 185-190),
oldest first. -/
structure FragState where
  buffer : Option FragBuf
  dispatched : List (List Nat)
deriving Repr, DecidableEq

/-- No buffer yet, nothing dispatched. -/
def fragInit : FragState := { buffer := none, dispatched := [] }

/-- The completeness walk of lines 149-162: fragments must tile
contiguously starting at `acc`; returns the end offset on success.
`complete && actual_len == expected_len` in the source is exactly
`scanComplete fragments 0 = some expected_len`. -/
def scanComplete : List (Nat × List Nat) → Nat → Option Nat
  | [], acc => some acc
  | (o, d) :: rest, acc =>
      if o = acc then scanComplete rest (acc + d.length) else none

/-- `IPLayer::process_fragment` (lines 103-196) for one key: find or
create the buffer, insert the payload at its offset, record the total
length when MF is clear, and when a contiguous cover of
`[0, total_length)` exists, dispatch the concatenation and delete the
buffer. -/
def processFragment (off : Nat) (mf : Bool) (payload : List Nat)
    (st : FragState) : FragState :=
  let buf := st.buffer.getD { fragments := [], totalLength := 0, receivedLength := 0 }
  let b1 : FragBuf :=
    { buf with fragments := insertFrag off payload buf.fragments,
               receivedLength := buf.receivedLength + payload.length }
  let b2 := if !mf then { b1 with totalLength := off + payload.length } else b1
  if b2.totalLength > 0 then
    match scanComplete b2.fragments 0 with
    | some actualLen =>
        if actualLen = b2.totalLength then
          { buffer := none,
            dispatched := st.dispatched ++ [(b2.fragments.map Prod.snd).flatten] }
        else { st with buffer := some b2 }
    | none => { st with buffer := some b2 }
  else { st with buffer := some b2 }

/-- Feed a list of fragments through `process_fragment` in order. -/
def processFrags : List Frag → FragState → FragState
  | [], st => st
  | f :: rest, st => processFrags rest (processFragment f.1 f.2.1 f.2.2 st)

/-- The fragment list of a packet cut into `pieces`, starting at byte
offset `a`: cumulative offsets, `MF` set on all but the last piece. -/
def mkFrags (a : Nat) : List (List Nat) → List Frag
  | [] => []
  | d :: rest => (a, !rest.isEmpty, d) :: mkFrags (a + d.length) rest

/-- Offset/payload view of a fragment list (the map entries it induces). -/
def keyedFrags (l : List Frag) : List (Nat × List Nat) :=
  l.map (fun f => (f.1, f.2.2))

/-- The offsets of a fragment list. -/
def offsOf (l : List Frag) : List Nat := l.map (fun f => f.1)

/-- Total payload length of the pieces (the packet length L). -/
def piecesTotal (pieces : List (List Nat)) : Nat := (pieces.map List.length).sum

/-- Reassembly invariant: after the fragments `processed` (a subset of
`mkFrags 0 pieces`) have arrived, nothing is dispatched and the buffer
holds exactly the sorted map of the processed fragments, with
`total_length` known exactly when the MF=0 fragment is among them. -/
def c4Inv (pieces : List (List Nat)) (processed : List Frag) (st : FragState) : Prop :=
  st.dispatched = [] ∧
  st.buffer = (if processed.isEmpty then none else some
    { fragments := (keyedFrags (mkFrags 0 pieces)).filter
        (fun p => decide (p.1 ∈ offsOf processed)),
      totalLength := if processed.any (fun f => !f.2.1) then piecesTotal pieces else 0,
      receivedLength := (processed.map (fun f => f.2.2.length)).sum })

/-! ## Virtual memory manager

Embeds the page-table walker of `VirtualMemoryManager` from
`src/kernel/mm/vitural.cc`: `map_page_internal` (lines 164-213),
`unmap_page_internal` (lines 215-282), `walk_page_table` (lines 132-162)
and `get_physical_address` (lines 326-350).

Memory holding page tables is modelled as a finite map from the table's
physical frame to its contents, tagged with the table's level (3 = PML4
down to 0 = PT; the level is the `level` parameter `get_next_table`
receives at allocation).  The PMM is modelled as a counter handing out
fresh frames; the 40-bit address field of a `PageTableEntry` is kept
exact (physical addresses never reach 2^52 in the machine, so the field
never truncates).  An entry absent from a table's association list reads
as an all-zero entry. -/

/-- `VirtualMemoryManager::PageTableEntry` (part_008 lines 32-75): the
bits that `map_page_internal` writes and the walkers read. -/
structure PTE where
  present : Bool
  writable : Bool
  user : Bool
  writeThrough : Bool
  cacheDisabled : Bool
  global : Bool
  huge : Bool
  noExecute : Bool
  addr : Nat
deriving Repr, DecidableEq

/-- An all-zero entry (`raw = 0`). -/
def PTE.zero : PTE :=
  { present := false, writable := false, user := false, writeThrough := false,
    cacheDisabled := false, global := false, huge := false, noExecute := false,
    addr := 0 }

/-- A page table: the entries that have ever been written, by index. -/
abbrev PTable : Type := List (Nat × PTE)

/-- Entry read (`table[i]`): unwritten entries are zero. -/
def getE (T : PTable) (i : Nat) : PTE :=
  ((T.find? (fun p => p.1 = i)).map Prod.snd).getD PTE.zero

/-- Entry write (`table[i] = e`). -/
def setE (T : PTable) (i : Nat) (e : PTE) : PTable :=
  (i, e) :: T.filter (fun p => p.1 ≠ i)

/-- The 512-entry emptiness scan of the prune pass (lines 264-269). -/
def tableEmpty (T : PTable) : Bool :=
  T.all (fun p => !p.2.present)

/-- The table heap: frame, level, contents. -/
abbrev THeap : Type := List (Nat × Nat × PTable)

/-- Look a frame up in the heap. -/
def lookupT (h : THeap) (f : Nat) : Option (Nat × PTable) :=
  (h.find? (fun p => p.1 = f)).map Prod.snd

/-- Read the table stored at a frame (absent memory reads as zeros). -/
def getTable (h : THeap) (f : Nat) : PTable :=
  ((lookupT h f).map Prod.snd).getD []

/-- Level tag of the table at a frame. -/
def getLevel (h : THeap) (f : Nat) : Option Nat :=
  (lookupT h f).map Prod.fst

/-- Store a table (keeping its level) at a frame. -/
def setTable (h : THeap) (f lvl : Nat) (T : PTable) : THeap :=
  (f, lvl, T) :: h.filter (fun p => p.1 ≠ f)

/-- Remove a frame from the heap (its frame was freed to the PMM). -/
def removeT (h : THeap) (f : Nat) : THeap :=
  h.filter (fun p => p.1 ≠ f)

/-- The flag set passed to `map_page` (`PageFlags`, part_008 lines 9-20). -/
structure MapFlags where
  present : Bool
  writable : Bool
  user : Bool
  writeThrough : Bool
  cacheDisabled : Bool
  global : Bool
  noExecute : Bool
deriving Repr, DecidableEq

/-- `Present | Writable`. -/
def MapFlags.presentWritable : MapFlags :=
  { present := true, writable := true, user := false, writeThrough := false,
    cacheDisabled := false, global := false, noExecute := false }

/-- The four 9-bit indices of a virtual address
(`indices[i] = (virt >> (12 + 9 i)) & 0x1FF`). -/
def vIdx (v i : Nat) : Nat := v >>> (12 + 9 * i) % 512

/-- VMM state: the table heap, the PML4 frame of the current address
space, and the next fresh PMM frame. -/
structure VMState where
  heap : THeap
  pml4 : Nat
  nextFrame : Nat
deriving Repr, DecidableEq

/-- The kernel address space right after `init`: an empty, zeroed PML4. -/
def vmInit : VMState := { heap := [(0, 3, [])], pml4 := 0, nextFrame := 1 }

/-- `VirtualMemoryManager::get_next_table(entry, level, allocate=true)`
(lines 75-105): follow a present entry, or install a fresh zeroed table
(Present|Writable; the `user` bit would need `level == 0`, which the map
walk never passes).  `f` is the frame of the table holding the entry,
`lvl` its level, `idx` the entry index; the new child's level is
`lvl - 1`. -/
def ensureChild (s : VMState) (f lvl idx : Nat) : VMState × Nat :=
  let T := getTable s.heap f
  let e := getE T idx
  if e.present then (s, e.addr)
  else
    let nf := s.nextFrame
    let e' := { PTE.zero with present := true, writable := true, addr := nf }
    let h1 := setTable s.heap nf (lvl - 1) []
    let h2 := setTable h1 f lvl (setE T idx e')
    ({ s with heap := h2, nextFrame := nf + 1 }, nf)

/-- The leaf entry `map_page_internal` writes (lines 198-206). -/
def mkLeaf (p : Nat) (fl : MapFlags) : PTE :=
  { present := fl.present, writable := fl.writable, user := fl.user,
    writeThrough := fl.writeThrough, cacheDisabled := fl.cacheDisabled,
    global := fl.global, huge := false, noExecute := fl.noExecute, addr := p }

/-- `VirtualMemoryManager::map_page_internal(virt, phys, flags)`
(lines 164-213): alignment checks, walk with lazy allocation, refusal of
an already-present leaf, and the leaf write. -/
def mapPage (s : VMState) (v p : Nat) (fl : MapFlags) : VMState × Bool :=
  if v % pageSize ≠ 0 ∨ p % pageSize ≠ 0 then (s, false)
  else
    let r3 := ensureChild s s.pml4 3 (vIdx v 3)
    let r2 := ensureChild r3.1 r3.2 2 (vIdx v 2)
    let r1 := ensureChild r2.1 r2.2 1 (vIdx v 1)
    let s3 := r1.1
    let t0 := r1.2
    let leaf := getE (getTable s3.heap t0) (vIdx v 0)
    if leaf.present then (s3, false)
    else
      let lT := setE (getTable s3.heap t0) (vIdx v 0) (mkLeaf p fl)
      ({ s3 with heap := setTable s3.heap t0 0 lT }, true)

/-- `VirtualMemoryManager::walk_page_table` (lines 132-162): returns the
leaf frame and the level it stopped at (level 0 for a 4 KiB mapping,
higher for a huge page or a missing entry). -/
def walkPageTable (s : VMState) (v : Nat) : Option Nat × Nat :=
  step3
where
  step3 : Option Nat × Nat :=
    let e := getE (getTable s.heap s.pml4) (vIdx v 3)
    if !e.present then (none, 3)
    else if e.huge then (some e.addr, 3)
    else step2 e.addr
  step2 (t2 : Nat) : Option Nat × Nat :=
    let e := getE (getTable s.heap t2) (vIdx v 2)
    if !e.present then (none, 2)
    else if e.huge then (some e.addr, 2)
    else step1 e.addr
  step1 (t1 : Nat) : Option Nat × Nat :=
    let e := getE (getTable s.heap t1) (vIdx v 1)
    if !e.present then (none, 1)
    else if e.huge then (some e.addr, 1)
    else step0 e.addr
  step0 (t0 : Nat) : Option Nat × Nat :=
    let e := getE (getTable s.heap t0) (vIdx v 0)
    if !e.present then (none, 0) else (some e.addr, 0)

/-- `VirtualMemoryManager::get_physical_address` (lines 326-350): walk,
then add the in-page offset (scaled by the level for huge mappings). -/
def getPhysicalAddress (s : VMState) (v : Nat) : Option Nat :=
  match walkPageTable s v with
  | (none, _) => none
  | (some phys, level) =>
      if level > 0 then
        let psize := pageSize * 512 ^ level
        some (phys + v % psize)
      else some (phys + v % pageSize)

/-- Result of an unmap: the return value, the leaf frame given back to
the PMM, the table frames freed by the prune pass, and whether the pass
performed the `tables[i + 1]` / `indices[i + 1]` access with `i + 1`
outside the four recorded levels (the source arrays have exactly 4
entries, so such an access is out of bounds). -/
structure UnmapOutcome where
  ok : Bool
  freedLeaf : Option Nat
  freedTables : List Nat
  oob : Bool
deriving Repr, DecidableEq

/-- One step of the prune loop (lines 260-279) at loop index `i`:
when the recorded table `tables[i]` is empty, free its frame and clear
the parent entry `tables[i + 1][indices[i + 1]]`; with `i + 1 > 3` that
parent access is out of bounds (flagged, no further mutation).  A
non-empty table leaves everything unchanged (the loop has no `break`). -/
def pruneStep (tables indices : List Nat)
    (acc : VMState × List Nat × Bool) (i : Nat) : VMState × List Nat × Bool :=
  let s := acc.1
  let tf := tables.getD i 0
  if tableEmpty (getTable s.heap tf) then
    let s' := { s with heap := removeT s.heap tf }
    if i + 1 < 4 then
      let pf := tables.getD (i + 1) 0
      let pidx := indices.getD (i + 1) 0
      let plvl := (getLevel s'.heap pf).getD 0
      let pT := setE (getTable s'.heap pf) pidx PTE.zero
      let s'' := { s' with heap := setTable s'.heap pf plvl pT }
      (s'', acc.2.1 ++ [tf], acc.2.2)
    else (s', acc.2.1 ++ [tf], true)
  else acc

/-- `VirtualMemoryManager::unmap_page_internal(virt)` (lines 215-282):
alignment check, recording walk, leaf free and clear, then the prune
loop over `i = 1, 2, 3`. -/
def unmapPage (s : VMState) (v : Nat) : VMState × UnmapOutcome :=
  if v % pageSize ≠ 0 then (s, { ok := false, freedLeaf := none, freedTables := [], oob := false })
  else
    let t3 := s.pml4
    let e3 := getE (getTable s.heap t3) (vIdx v 3)
    if !e3.present then (s, { ok := false, freedLeaf := none, freedTables := [], oob := false })
    else
      let t2 := e3.addr
      let e2 := getE (getTable s.heap t2) (vIdx v 2)
      if !e2.present then (s, { ok := false, freedLeaf := none, freedTables := [], oob := false })
      else
        let t1 := e2.addr
        let e1 := getE (getTable s.heap t1) (vIdx v 1)
        if !e1.present then (s, { ok := false, freedLeaf := none, freedTables := [], oob := false })
        else
          let t0 := e1.addr
          let leaf := getE (getTable s.heap t0) (vIdx v 0)
          if !leaf.present then
            (s, { ok := false, freedLeaf := none, freedTables := [], oob := false })
          else
            let lvl0 := (getLevel s.heap t0).getD 0
            let cT := setE (getTable s.heap t0) (vIdx v 0) PTE.zero
            let s1 := { s with heap := setTable s.heap t0 lvl0 cT }
            let tables := [t0, t1, t2, t3]
            let indices := [vIdx v 0, vIdx v 1, vIdx v 2, vIdx v 3]
            let r := [1, 2, 3].foldl (pruneStep tables indices) (s1, [], false)
            (r.1, { ok := true, freedLeaf := some leaf.addr,
                    freedTables := r.2.1, oob := r.2.2 })

/-- A map or unmap request. -/
inductive VMOp where
  | map (v p : Nat) (fl : MapFlags)
  | unmap (v : Nat)
deriving Repr, DecidableEq

/-- Run a sequence of map/unmap calls from the fresh kernel space. -/
def applyOps : List VMOp → VMState → VMState
  | [], s => s
  | .map v p fl :: rest, s => applyOps rest (mapPage s v p fl).1
  | .unmap v :: rest, s => applyOps rest (unmapPage s v).1

/-- Well-formedness of a VMM state, maintained by every map/unmap call
from the fresh kernel space: every table frame is below the allocation
counter, the PML4 is a level-3 table, and every present entry of a table
of level ≥ 1 points to a strictly larger frame holding a table of the
next-lower level.  (Levels are the `level` argument threaded through
`get_next_table`.) -/
def WFState (s : VMState) : Prop :=
  (∀ q ∈ s.heap, q.1 < s.nextFrame) ∧
  getLevel s.heap s.pml4 = some 3 ∧
  ∀ q ∈ s.heap, ∀ p ∈ q.2.2, p.2.present = true → 1 ≤ q.2.1 →
    getLevel s.heap p.2.addr = some (q.2.1 - 1) ∧ q.1 < p.2.addr

/-! ## Concrete claim scenarios -/

/-- C1: a socket on which `listen()` succeeded (constructor state with
`state_ = Listen`; a fresh listening socket has `send_sequence_ = 0`, so
its initial send sequence S is 0). -/
def c1Listen : TCPSocket := { TCPSocket.fresh with state := .Listen }

/-- C1: the peer's SYN, sequence number 100. -/
def c1Syn : TCPSegment :=
  { seqNum := 100, ackNum := 0, windowSize := 65535,
    syn := true, ack := false, fin := false, rst := false, data := [] }

/-- C1: the peer's handshake ACK (acknowledging S + 1 = 1). -/
def c1Ack : TCPSegment :=
  { seqNum := 101, ackNum := 1, windowSize := 65535,
    syn := false, ack := false, fin := false, rst := false, data := [] }

/-- C1: the 4-byte in-order data segment "GET " at sequence 101. -/
def c1Data : TCPSegment :=
  { seqNum := 101, ackNum := 1, windowSize := 65535,
    syn := false, ack := false, fin := false, rst := false, data := [71, 69, 84, 32] }

/-- C1: socket after the SYN. -/
def c1S1 : TCPSocket := (c1Listen.receiveSegment c1Syn).1

/-- C1: socket after the peer's ACK (`ack := true` on the segment). -/
def c1S2 : TCPSocket := (c1S1.receiveSegment { c1Ack with ack := true }).1

/-- C1: socket after the data segment. -/
def c1S3 : TCPSocket := (c1S2.receiveSegment c1Data).1

/-- C9: an Established socket with one unacknowledged 100-byte send
buffer, timestamp 0, default retransmit timeout (1000000 cycles). -/
def c9Sock : TCPSocket :=
  { TCPSocket.fresh with
      state := .Established,
      sendBuffers := [{ seqStart := 1000, seqEnd := 1100,
                        data := List.replicate 100 0, timestamp := 0,
                        acknowledged := false }] }

/-- C9: poll the socket repeatedly, 2000000 cycles apart, so the buffer
is past the retransmit timeout on every poll. -/
def c9Iter : Nat → TCPSocket
  | 0 => c9Sock
  | n + 1 => (c9Iter n).poll (2000000 * (n + 1))

/-- C5: both threads of processes "a" (id 1) and "b" (id 2) Ready in
priority band 1 (where RoundRobin enqueues them), idle thread id 0
current, last switch at time 0, time slice 1. -/
def c5State : SchedState :=
  { queues := [{ threads := [], currentIndex := 0 },
               { threads := [1, 2], currentIndex := 0 },
               { threads := [], currentIndex := 0 },
               { threads := [], currentIndex := 0 }],
    table := [(0, { tstate := .Running, sleepUntil := 0, procAlive := true }),
              (1, { tstate := .Ready, sleepUntil := 0, procAlive := true }),
              (2, { tstate := .Ready, sleepUntil := 0, procAlive := true })],
    currentId := 0, idleId := 0, lastScheduleTime := 0, timeSliceDefault := 1,
    timerTicks := 0, dispatched := [] }

/-- C5: timer ticks at times 2, 4, 6 — each elapsed time exceeds the
slice of 1. -/
def c5Run : Nat → SchedState
  | 0 => c5State
  | n + 1 => handleTimerTick (c5Run n) (2 * (n + 1))

/-- C2: the kernel space with one mapping, virtual 0x1000 to physical
0x7000, Present|Writable. -/
def c2Mapped : VMState := (mapPage vmInit 4096 28672 MapFlags.presentWritable).1

/-- C2: unmapping that single mapping. -/
def c2Unmapped : VMState × UnmapOutcome := unmapPage c2Mapped 4096

/-! # Theorems -/

/-- C1: on the TCP passive-open path, the SYN (seq 100) does create a
SynReceived connection and a SYN-ACK with acknowledgment 101, and the
in-order data segment is buffered and acknowledged with 105 — but the
peer's handshake ACK never moves the socket to Established
(`process_ack`, part_002 lines 388-396, changes no state), so the claimed
`receive` of "GET " returns 0 bytes instead: `receive` (line 163) bails
out on any state other than Established. -/
theorem tcp_passive_open_never_reaches_established :
    c1S1.state = TCPState.SynReceived ∧
    c1S1.sent = [{ seqNum := 0, ackNum := 101, windowSize := 65535,
                   syn := true, ack := true, fin := false, rst := false, data := [] }] ∧
    c1S2.state = TCPState.SynReceived ∧
    c1S2.state ≠ TCPState.Established ∧
    c1S3.recvQueue = [71, 69, 84, 32] ∧
    c1S3.sent.getLast? = some { seqNum := 1, ackNum := 105, windowSize := 65535,
                                syn := false, ack := true, fin := false, rst := false,
                                data := [] } ∧
    c1S3.receiveCall 100 0 1 1 = some (c1S3, 0) := by
  decide

/-- C2: mapping virtual 0x1000 to physical 0x7000 and unmapping it frees
the leaf frame and makes the walk return `None`, and a second unmap
returns an error — but the page table emptied by the unmap is NOT freed:
the prune loop of `unmap_page_internal` (vitural.cc lines 260-279) starts
at level 1, whose entry down to the now-empty level-0 table is still
present, so no intermediate table is ever reclaimed. -/
theorem unmap_leaves_emptied_table_allocated :
    c2Unmapped.2.ok = true ∧
    c2Unmapped.2.freedLeaf = some 28672 ∧
    getPhysicalAddress c2Mapped 4096 = some 28672 ∧
    getPhysicalAddress c2Mapped 4162 = some 28738 ∧
    getPhysicalAddress c2Unmapped.1 4096 = none ∧
    tableEmpty (getTable c2Unmapped.1.heap 3) = true ∧
    (lookupT c2Unmapped.1.heap 3).isSome = true ∧
    c2Unmapped.2.freedTables = [] ∧
    (unmapPage c2Unmapped.1 4096).2.ok = false := by
  decide

/-- C3: a region at 0x100000 holds 4 consecutive free pages whose first
page address is a multiple of 8192, yet `allocate_aligned(2, 8192)`
fails: the scan (part_004 lines 344-390) resets its run on every page
whose own address is not aligned, so for alignments above one page a run
of length 2 can never form.  The unaligned allocator and the
single-page aligned allocator find the same pages. -/
theorem allocate_aligned_rejects_aligned_run :
    bmTest (c3State.regions.getD 0 { base := 0, bitmap := [], freePages := 0 }).bitmap 0
      = false ∧
    bmTest (c3State.regions.getD 0 { base := 0, bitmap := [], freePages := 0 }).bitmap 1
      = false ∧
    1048576 % 8192 = 0 ∧
    allocateAligned c3State 2 8192 = none ∧
    (allocatePages c3State 2).map Prod.snd = some 1048576 ∧
    (allocateAligned c3State 1 8192).map Prod.snd = some 1048576 := by
  decide

/-- C5: with threads "a" (1) and "b" (2) Ready in band 1 and the idle
thread current, three timer ticks at slice 1 dispatch NOTHING: the
dispatch log stays empty and the idle thread stays current, because
`handle_timer_tick` (vitural.cc line 1300) only re-enters selection when
the current thread is not idle.  Selection itself, run directly, would
pick thread "a". -/
theorem timer_ticks_never_dispatch_from_idle :
    (c5Run 3).dispatched = [] ∧
    (c5Run 3).currentId = 0 ∧
    (c5Run 3).timerTicks = 3 ∧
    (selectNextThread c5State 2).2 = 1 := by
  decide

/-- C7: allocating both pages of a 2-page region and then freeing the
range twice leaves `free_pages_ = 4` while only 2 bitmap bits are clear
(and `used_pages_` wraps below zero): `free_pages` (part_004 lines
484-489) adds `count` to the counters even when the bits were already
clear, so the counters diverge from the bitmaps on a double free. -/
theorem free_pages_counters_diverge_on_double_free :
    c7State.freePagesCtr = 4 ∧
    totalClearBits c7State = 2 ∧
    c7State.freePagesCtr ≠ totalClearBits c7State ∧
    c7State.usedPagesCtr = w64 - 2 := by
  decide

/-- Helper: with `timeout_ms = 0` and an empty queue, the UDP polling
loop never returns, whatever the fuel. -/
theorem udpRecvLoop_timeout0 :
    ∀ (fuel k size step : Nat), udpRecvLoop [] size 0 step k fuel = none := by
  intro fuel
  induction fuel with
  | zero => intro k size step; rfl
  | succ n ih => intro k size step; simpa [udpRecvLoop] using ih (k + 1) size step

/-- Helper: with `timeout_ms = 0` and an empty ring, the TCP polling
loop never returns. -/
theorem tcpRecvLoop_timeout0 (sock : TCPSocket) (h : sock.recvQueue = []) :
    ∀ (fuel k size step : Nat), tcpRecvLoop sock size 0 step k fuel = none := by
  intro fuel
  induction fuel with
  | zero => intro k size step; rfl
  | succ n ih => intro k size step; simpa [tcpRecvLoop, h] using ih (k + 1) size step

/-- Helper: with `timeout_ms = 0` and no ready descriptor, the Ethernet
polling loop never returns. -/
theorem ethRecvLoop_timeout0 :
    ∀ (fuel k len buf step : Nat), ethRecvLoop false len buf 0 step k fuel = none := by
  intro fuel
  induction fuel with
  | zero => intro k len buf step; rfl
  | succ n ih => intro k len buf step; simpa [ethRecvLoop] using ih (k + 1) len buf step

/-- Helper: with a positive timeout, one cycle per iteration and an empty
queue, the UDP polling loop returns 0 once the iteration count passes
`timeout * 1000000`. -/
theorem udpRecvLoop_pos :
    ∀ (fuel k size t : Nat), (t + 1) * 1000000 + 2 ≤ k + fuel → 1 ≤ fuel →
      udpRecvLoop [] size (t + 1) 1 k fuel = some 0 := by
  intro fuel
  induction fuel with
  | zero => intro k size t _ h1; omega
  | succ n ih =>
      intro k size t hb _
      simp only [udpRecvLoop]
      split
      · rfl
      · rename_i hk
        simp only [not_and, gt_iff_lt, Nat.mul_one] at hk
        exact ih (k + 1) size t (by omega) (by omega)

/-- Helper: same bound for the TCP polling loop. -/
theorem tcpRecvLoop_pos (sock : TCPSocket) (h : sock.recvQueue = []) :
    ∀ (fuel k size t : Nat), (t + 1) * 1000000 + 2 ≤ k + fuel → 1 ≤ fuel →
      tcpRecvLoop sock size (t + 1) 1 k fuel = some (sock, 0) := by
  intro fuel
  induction fuel with
  | zero => intro k size t _ h1; omega
  | succ n ih =>
      intro k size t hb _
      simp only [tcpRecvLoop, h]
      split
      · split
        · rfl
        · rename_i hk
          simp only [not_and, gt_iff_lt, Nat.mul_one] at hk
          exact ih (k + 1) size t (by omega) (by omega)
      · rename_i hq
        simp at hq

/-- Helper: same bound for the Ethernet polling loop (returns `false`). -/
theorem ethRecvLoop_pos :
    ∀ (fuel k len buf t : Nat), (t + 1) * 1000000 + 2 ≤ k + fuel → 1 ≤ fuel →
      ethRecvLoop false len buf (t + 1) 1 k fuel = some false := by
  intro fuel
  induction fuel with
  | zero => intro k len buf t _ h1; omega
  | succ n ih =>
      intro k len buf t hb _
      simp only [ethRecvLoop, Bool.false_eq_true, if_false]
      split
      · rfl
      · rename_i hk
        simp only [not_and, gt_iff_lt, Nat.mul_one] at hk
        exact ih (k + 1) len buf t (by omega) (by omega)

/-- C6 counterexample: a bound UDP socket with an empty queue and
`timeout_ms = 0` never returns from `receive_from`, however many polling
iterations it is given — the claim that timeout 0 "polls without blocking
and returns 0" fails on this input.  The elapsed-time check (udp.cc line
110) is guarded by `timeout_ms != 0`, so timeout 0 waits forever. -/
theorem udp_receive_timeout0_never_returns :
    ¬ ∃ fuel, (udpReceiveFrom true [] 100 0 1 fuel).isSome = true := by
  intro hc
  obtain ⟨fuel, h⟩ := hc
  rw [udpReceiveFrom] at h
  simp [udpRecvLoop_timeout0] at h

/-- C6 amended: in all three receive paths, `timeout = 0` means wait
indefinitely (an empty queue makes the call poll forever), while a
positive timeout terminates with 0 bytes (or `false`) once the elapsed
cycles exceed `timeout * 1000000` (one cycle per polling iteration). -/
theorem receive_timeout_semantics :
    (∀ fuel size step, udpReceiveFrom true [] size 0 step fuel = none) ∧
    (∀ t size, udpReceiveFrom true [] size (t + 1) 1 ((t + 1) * 1000000 + 2) = some 0) ∧
    (∀ fuel size step (sock : TCPSocket), sock.recvQueue = [] →
      sock.state = TCPState.Established →
      sock.receiveCall size 0 step fuel = none) ∧
    (∀ t size (sock : TCPSocket), sock.recvQueue = [] →
      sock.state = TCPState.Established →
      sock.receiveCall size (t + 1) 1 ((t + 1) * 1000000 + 2) = some (sock, 0)) ∧
    (∀ fuel len buf step, ethReceive false len buf 0 step fuel = none) ∧
    (∀ t len buf, ethReceive false len buf (t + 1) 1 ((t + 1) * 1000000 + 2) = some false) := by
  refine ⟨?_, ?_, ?_, ?_, ?_, ?_⟩
  · intro fuel size step
    rw [udpReceiveFrom]
    simp [udpRecvLoop_timeout0]
  · intro t size
    rw [udpReceiveFrom]
    simpa using udpRecvLoop_pos ((t + 1) * 1000000 + 2) 0 size t (by omega) (by omega)
  · intro fuel size step sock hq hs
    rw [TCPSocket.receiveCall]
    simp [hs, tcpRecvLoop_timeout0 sock hq]
  · intro t size sock hq hs
    rw [TCPSocket.receiveCall]
    simpa [hs] using tcpRecvLoop_pos sock hq ((t + 1) * 1000000 + 2) 0 size t (by omega) (by omega)
  · intro fuel len buf step
    rw [ethReceive]
    exact ethRecvLoop_timeout0 fuel 0 len buf step
  · intro t len buf
    rw [ethReceive]
    exact ethRecvLoop_pos ((t + 1) * 1000000 + 2) 0 len buf t (by omega) (by omega)

/-- C6 witness: the amended theorem applied at timeout 1 ms on a concrete
Established socket with an empty ring. -/
theorem receive_timeout_semantics_witness :
    ({ TCPSocket.fresh with state := TCPState.Established } : TCPSocket).recvQueue = [] ∧
    ({ TCPSocket.fresh with state := TCPState.Established } : TCPSocket).receiveCall
      100 1 1 1000002 =
      some ({ TCPSocket.fresh with state := TCPState.Established }, 0) := by
  constructor
  · rfl
  · exact receive_timeout_semantics.2.2.2.1 0 100
      { TCPSocket.fresh with state := TCPState.Established } rfl rfl

/-- C9 counterexample: a single unacknowledged buffer is retransmitted on
11 consecutive polls and the socket is still Established with
`retransmit_count_ = 11`; the abort only happens on the 12th attempt.
The claim "after 10 retransmissions of any single buffer the socket is
aborted" is therefore false as stated (and the counter is per socket, not
per buffer). -/
theorem retransmit_abort_not_after_ten :
    (c9Iter 11).state = TCPState.Established ∧
    (c9Iter 11).retransmitCount = 11 ∧
    (c9Iter 11).sent.length = 11 ∧
    (c9Iter 12).state = TCPState.Closed := by
  decide

/-- C9 amended: on each pass of `retransmit_pending_data`, every
unacknowledged buffer whose age exceeds the timeout is re-sent in order
with its timestamp reset and acknowledged buffers are never re-sent
(re-sends are exactly the eligible buffers) — but the retransmission
counter is socket-wide, shared by all buffers and never reset: with the
counter at `c`, only the first `11 - c` eligible buffers are re-sent, the
socket aborts exactly when the eligible buffers would push the counter
past 11, and the counter advances by the number of re-sends. -/
theorem retransmit_counter_is_socket_wide (now timeout : Nat) :
    ∀ (bufs : List SendBuf) (count : Nat),
      (retxLoop now timeout count bufs).2.1 =
        ((bufs.filter (eligibleRetx now timeout)).map SendBuf.seqStart).take (11 - count) ∧
      (retxLoop now timeout count bufs).2.2.2 =
        decide (bufs.countP (eligibleRetx now timeout) > 11 - count) ∧
      (retxLoop now timeout count bufs).2.2.1 =
        count + min (bufs.countP (eligibleRetx now timeout)) (11 - count) := by
  intro bufs
  induction bufs with
  | nil => intro count; simp [retxLoop]
  | cons b rest ih =>
      intro count
      by_cases he : eligibleRetx now timeout b
      · by_cases hc : count > 10
        · refine ⟨?_, ?_, ?_⟩
          · simp [retxLoop, he, hc, List.filter_cons, Nat.sub_eq_zero_of_le (by omega : 11 ≤ count)]
          · simp [retxLoop, he, hc, List.filter_cons, List.countP_cons]
            omega
          · simp [retxLoop, he, hc, List.filter_cons, List.countP_cons]
            omega
        · obtain ⟨ih1, ih2, ih3⟩ := ih (count + 1)
          refine ⟨?_, ?_, ?_⟩
          · simp [retxLoop, he, hc, List.filter_cons, ih1]
            rw [show 11 - count = (11 - (count + 1)) + 1 by omega]
            simp [List.take_succ_cons]
          · simp [retxLoop, he, hc, List.countP_cons, ih2]
            omega
          · simp [retxLoop, he, hc, List.countP_cons, ih3]
            omega
      · obtain ⟨ih1, ih2, ih3⟩ := ih count
        refine ⟨?_, ?_, ?_⟩
        · simp [retxLoop, he, List.filter_cons, ih1]
        · simp [retxLoop, he, List.countP_cons, ih2]
        · simp [retxLoop, he, List.countP_cons, ih3]

/-- Helper: closed form of the PRDT loop.  With `k` entries left to
produce (`needed - i = k`), enough fuel, and `k` the exact chunk count of
the remaining bytes, the generated `byte_count` and
`interrupt_on_completion` columns are the expected ones. -/
theorem buildPrdt_cols (needed : Nat) :
    ∀ (k fuel i phys r : Nat), needed - i = k → k ≤ fuel →
      (r + 262143) / 262144 = k →
      (buildPrdt needed fuel phys r i).map PRDTEntry.byteCount
          = (List.range k).map (fun j => min (r - j * 262144) 262144 - 1) ∧
      (buildPrdt needed fuel phys r i).map PRDTEntry.interruptOnCompletion
          = (List.range k).map (fun j => decide (j = k - 1)) := by
  intro k
  induction k with
  | zero =>
      intro fuel i phys r hki _ hceil
      have hr : r = 0 := by omega
      cases fuel with
      | zero => simp [buildPrdt]
      | succ m => simp [buildPrdt, hr]
  | succ k ih =>
      intro fuel i phys r hki hfuel hceil
      have hr : r > 0 := by omega
      have hi : i < needed := by omega
      cases fuel with
      | zero => omega
      | succ m =>
          have hcond : i < needed ∧ r > 0 := ⟨hi, hr⟩
          have hrec := ih m (i + 1) (phys + min r 262144) (r - min r 262144)
            (by omega) (by omega)
            (by rcases Nat.le_total r 262144 with h | h
                · simp [Nat.min_eq_left h]; omega
                · simp [Nat.min_eq_right h]; omega)
          obtain ⟨ihb, ihi⟩ := hrec
          constructor
          · simp only [buildPrdt, if_pos hcond, List.map_cons, ihb,
              List.range_succ_eq_map, List.map_map]
            refine List.cons_eq_cons.mpr ⟨by omega, ?_⟩
            apply List.map_congr_left
            intro j _
            simp only [Function.comp]
            rcases Nat.le_total r 262144 with h | h
            · simp [Nat.min_eq_left h]; omega
            · simp [Nat.min_eq_right h]; omega
          · simp only [buildPrdt, if_pos hcond, List.map_cons, ihi,
              List.range_succ_eq_map, List.map_map]
            refine List.cons_eq_cons.mpr ⟨by rw [decide_eq_decide]; omega, ?_⟩
            apply List.map_congr_left
            intro j hj
            simp only [Function.comp]
            rw [decide_eq_decide]
            simp only [List.mem_range] at hj
            omega


/-- C8: `read_sectors` fails on an uninitialized (or out-of-range) port
and on a range beyond `sector_count`; otherwise, for positive `count`,
the transfer of `count * sector_size` bytes is split into
`ceil(total / 262144)` PRDT entries, each covering at most 256 KiB with
`byte_count` holding the chunk length minus one, interrupt-on-completion
set exactly on the final entry, and the command header's `prdt_length`
equal to the number of entries; more than 8 needed entries fail.  (The
claim's `count * 512` is the `sector_size = 512` instance.) -/
theorem read_sectors_prdt_split (portValid : Bool) (info : PortInfo)
    (lba count bufPhys : Nat) :
    ((portValid = false ∨ info.initialized = false ∨ info.sectorCount < lba + count) →
      readSectors portValid info lba count bufPhys = .fail) ∧
    (portValid = true → info.initialized = true → lba + count ≤ info.sectorCount →
      count ≠ 0 → bufPhys ≠ 0 →
      (8 < (count * info.sectorSize + 262144 - 1) / 262144 →
        readSectors portValid info lba count bufPhys = .fail) ∧
      ((count * info.sectorSize + 262144 - 1) / 262144 ≤ 8 →
        readSectors portValid info lba count bufPhys =
          .cmd (buildPrdt ((count * info.sectorSize + 262144 - 1) / 262144)
                  ((count * info.sectorSize + 262144 - 1) / 262144) bufPhys
                  (count * info.sectorSize) 0)
               ((count * info.sectorSize + 262144 - 1) / 262144)
               (if info.supports48bit then 37 else 32) ∧
        (buildPrdt ((count * info.sectorSize + 262144 - 1) / 262144)
            ((count * info.sectorSize + 262144 - 1) / 262144) bufPhys
            (count * info.sectorSize) 0).length
          = (count * info.sectorSize + 262144 - 1) / 262144 ∧
        (buildPrdt ((count * info.sectorSize + 262144 - 1) / 262144)
            ((count * info.sectorSize + 262144 - 1) / 262144) bufPhys
            (count * info.sectorSize) 0).map PRDTEntry.byteCount
          = (List.range ((count * info.sectorSize + 262144 - 1) / 262144)).map
              (fun j => min (count * info.sectorSize - j * 262144) 262144 - 1) ∧
        (buildPrdt ((count * info.sectorSize + 262144 - 1) / 262144)
            ((count * info.sectorSize + 262144 - 1) / 262144) bufPhys
            (count * info.sectorSize) 0).map PRDTEntry.interruptOnCompletion
          = (List.range ((count * info.sectorSize + 262144 - 1) / 262144)).map
              (fun j => decide (j = (count * info.sectorSize + 262144 - 1) / 262144 - 1)) ∧
        ∀ e ∈ buildPrdt ((count * info.sectorSize + 262144 - 1) / 262144)
                ((count * info.sectorSize + 262144 - 1) / 262144) bufPhys
                (count * info.sectorSize) 0, e.byteCount + 1 ≤ 262144)) := by
  constructor
  · intro h
    rcases h with h | h | h
    · simp [readSectors, h]
    · cases hv : portValid <;> simp [readSectors, h, hv]
    · cases hv : portValid <;> cases hinit : info.initialized <;>
        simp [readSectors, h, hv, hinit]
  · intro hv hinit hrange hcount hphys
    subst hv
    have hnl : ¬ (lba + count > info.sectorCount) := by omega
    have hcols := buildPrdt_cols ((count * info.sectorSize + 262144 - 1) / 262144)
      ((count * info.sectorSize + 262144 - 1) / 262144)
      ((count * info.sectorSize + 262144 - 1) / 262144)
      0 bufPhys (count * info.sectorSize) (by omega) (Nat.le_refl _) (by omega)
    constructor
    · intro h8
      have h8' : 8 < (count * info.sectorSize + 262143) / 262144 := by omega
      simp [readSectors, hinit, hnl, hcount, hphys, h8']
    · intro h8
      have hn8 : ¬ (8 < (count * info.sectorSize + 262143) / 262144) := by omega
      refine ⟨?_, ?_, hcols.1, hcols.2, ?_⟩
      · simp [readSectors, hinit, hnl, hcount, hphys, hn8]
      · have := congrArg List.length hcols.1
        simpa using this
      · intro e he
        have hmem : e.byteCount ∈
            (buildPrdt ((count * info.sectorSize + 262144 - 1) / 262144)
              ((count * info.sectorSize + 262144 - 1) / 262144) bufPhys
              (count * info.sectorSize) 0).map PRDTEntry.byteCount :=
          List.mem_map_of_mem _ he
        rw [hcols.1] at hmem
        simp only [List.mem_map, List.mem_range] at hmem
        obtain ⟨j, _, heq⟩ := hmem
        omega


/-- C8 witness: a 1 GiB LBA48 port, reading 1025 sectors of 512 bytes
(524800 bytes): 3 PRDT entries of 262144, 262144 and 512 bytes, the last
one carrying the interrupt bit. -/
theorem read_sectors_prdt_split_witness :
    readSectors true { initialized := true, sectorCount := 2097152, sectorSize := 512,
                       supports48bit := true } 0 1025 4096 =
      ReadResult.cmd (buildPrdt 3 3 4096 524800 0) 3 37 ∧
    (buildPrdt 3 3 4096 524800 0).map PRDTEntry.byteCount = [262143, 262143, 511] ∧
    (buildPrdt 3 3 4096 524800 0).map PRDTEntry.interruptOnCompletion =
      [false, false, true] := by
  have h := (read_sectors_prdt_split true
    { initialized := true, sectorCount := 2097152, sectorSize := 512, supports48bit := true }
    0 1025 4096).2 rfl rfl (by decide) (by decide) (by decide)
  have h2 := (h.2 (by decide)).1
  exact ⟨h2, by decide, by decide⟩


/-- Helper: every offset produced from pieces starting at `a` is ≥ `a`. -/
theorem keyed_lb (pieces : List (List Nat)) :
    ∀ a q, q ∈ keyedFrags (mkFrags a pieces) → a ≤ q.1 := by
  induction pieces with
  | nil => intro a q hq; simp [mkFrags, keyedFrags] at hq
  | cons d rest ih =>
      intro a q hq
      simp only [mkFrags, keyedFrags, List.map_cons, List.mem_cons] at hq
      rcases hq with h | h
      · subst h; exact Nat.le_refl a
      · have := ih (a + d.length) q h
        omega

/-- Helper: with nonempty pieces, offsets are strictly above the start
for every fragment after the first. -/
theorem keyed_payloads (pieces : List (List Nat)) :
    ∀ a, (keyedFrags (mkFrags a pieces)).map Prod.snd = pieces := by
  induction pieces with
  | nil => intro a; simp [mkFrags, keyedFrags]
  | cons d rest ih =>
      intro a
      simp only [mkFrags, keyedFrags, List.map_cons]
      exact congrArg (List.cons d) (ih (a + d.length))

/-- Helper: the offsets of a fragment list built from nonempty pieces
are distinct. -/
theorem mkFrags_offs_nodup (pieces : List (List Nat)) (hp : ∀ p ∈ pieces, p ≠ []) :
    ∀ a, (offsOf (mkFrags a pieces)).Nodup := by
  induction pieces with
  | nil => intro a; simp [mkFrags, offsOf]
  | cons d rest ih =>
      intro a
      have hd : d ≠ [] := hp d (by simp)
      have hdl : 1 ≤ d.length := List.length_pos.mpr hd
      simp only [mkFrags, offsOf, List.map_cons, List.nodup_cons]
      constructor
      · intro hmem
        simp only [offsOf, List.mem_map] at hmem
        obtain ⟨f, hf, hfa⟩ := hmem
        have : a + d.length ≤ f.1 := by
          have hm : ((f.1, f.2.2) : Nat × List Nat) ∈
              keyedFrags (mkFrags (a + d.length) rest) :=
            List.mem_map.mpr ⟨f, hf, rfl⟩
          exact keyed_lb rest (a + d.length) _ hm
        omega
      · exact ih (fun p hp' => hp p (by simp [hp'])) (a + d.length)

/-- Helper: the MF=0 fragment ends exactly at the total length. -/
theorem mkFrags_mf_end (pieces : List (List Nat)) :
    ∀ a o d, (o, false, d) ∈ mkFrags a pieces → o + d.length = a + piecesTotal pieces := by
  induction pieces with
  | nil => intro a o d h; simp [mkFrags] at h
  | cons p rest ih =>
      intro a o d h
      simp only [mkFrags, List.mem_cons] at h
      rcases h with h | h
      · have hrest : rest = [] := by
          have h2 := congrArg (fun t : Frag => t.2.1) h
          simpa using h2
        subst hrest
        have ho : o = a := by
          have h2 := congrArg (fun t : Frag => t.1) h
          simpa using h2
        have hd : d = p := by
          have h2 := congrArg (fun t : Frag => t.2.2) h
          simpa using h2
        subst ho; subst hd
        simp [piecesTotal]
      · have := ih (a + p.length) o d h
        simp only [piecesTotal, List.map_cons, List.sum_cons] at *
        omega


/-- Helper: inserting a key below every key of a sorted map conses it. -/
theorem insertFrag_front (o : Nat) (d : List Nat) :
    ∀ m : List (Nat × List Nat), (∀ q ∈ m, o < q.1) →
      insertFrag o d m = (o, d) :: m := by
  intro m
  induction m with
  | nil => intro _; rfl
  | cons q rest _ =>
      intro hlt
      have h1 : o < q.1 := hlt q (by simp)
      simp only [insertFrag]
      rw [if_neg (by omega), if_pos h1]

/-- Helper: inserting a fragment whose offset belongs to the packet but
not yet to the processed set turns the filtered map of `S` into the
filtered map of `o :: S`. -/
theorem insert_filter (pieces : List (List Nat)) (hp : ∀ p ∈ pieces, p ≠ []) :
    ∀ a (S : List Nat) o d,
      (o, d) ∈ keyedFrags (mkFrags a pieces) → o ∉ S →
      insertFrag o d ((keyedFrags (mkFrags a pieces)).filter
          (fun p => decide (p.1 ∈ S)))
        = (keyedFrags (mkFrags a pieces)).filter (fun p => decide (p.1 ∈ o :: S)) := by
  induction pieces with
  | nil =>
      intro a S o d hmem _
      simp [mkFrags, keyedFrags] at hmem
  | cons p0 rest ih =>
      intro a S o d hmem hno
      have hp' : ∀ p ∈ rest, p ≠ [] := fun p h => hp p (by simp [h])
      have hp0l : 1 ≤ p0.length := List.length_pos.mpr (hp p0 (by simp))
      have hrest : ∀ q ∈ keyedFrags (mkFrags (a + p0.length) rest), a < q.1 := by
        intro q hq
        have := keyed_lb rest (a + p0.length) q hq
        omega
      have hkeyed : keyedFrags (mkFrags a (p0 :: rest))
          = (a, p0) :: keyedFrags (mkFrags (a + p0.length) rest) := by
        simp [mkFrags, keyedFrags]
      rw [hkeyed] at hmem ⊢
      rw [List.filter_cons, List.filter_cons]
      rcases List.mem_cons.mp hmem with heq | hmem2
      · have ho : o = a := ((Prod.mk.injEq _ _ _ _).mp heq).1
        have hd : d = p0 := ((Prod.mk.injEq _ _ _ _).mp heq).2
        rw [if_neg (by simp only [decide_eq_true_eq]; rw [← ho]; exact hno)]
        rw [if_pos (by simp [ho])]
        have hfsub : ∀ q ∈ (keyedFrags (mkFrags (a + p0.length) rest)).filter
            (fun p => decide (p.1 ∈ S)), o < q.1 := by
          intro q hq
          rw [ho]
          exact hrest q (List.mem_of_mem_filter hq)
        rw [insertFrag_front o d _ hfsub, ho, hd]
        congr 1
        apply List.filter_congr
        intro q hq
        have hqo : a < q.1 := hrest q hq
        apply decide_eq_decide.mpr
        simp only [List.mem_cons]
        constructor
        · intro h; exact Or.inr h
        · intro h
          rcases h with h | h
          · omega
          · exact h
      · have ho : a < o := hrest _ hmem2
        by_cases haS : a ∈ S
        · rw [if_pos (by simpa using haS), if_pos (by simp [haS])]
          have hins : insertFrag o d ((a, p0) ::
              (keyedFrags (mkFrags (a + p0.length) rest)).filter
                (fun p => decide (p.1 ∈ S)))
              = (a, p0) :: insertFrag o d
                ((keyedFrags (mkFrags (a + p0.length) rest)).filter
                  (fun p => decide (p.1 ∈ S))) := by
            simp only [insertFrag]
            rw [if_neg (by omega), if_neg (by omega)]
          rw [hins, ih hp' (a + p0.length) S o d hmem2 hno]
        · have hcond : ¬ ((decide ((a, p0).1 ∈ o :: S)) = true) := by
            simp only [decide_eq_true_eq, List.mem_cons]
            push_neg
            exact ⟨by omega, haS⟩
          rw [if_neg (by simpa using haS), if_neg hcond]
          exact ih hp' (a + p0.length) S o d hmem2 hno


/-- Helper: the completeness walk over the filtered map succeeds with the
full packet length exactly when every fragment offset has been selected. -/
theorem scan_filter (pieces : List (List Nat)) (hp : ∀ p ∈ pieces, p ≠ []) :
    ∀ a (S : List Nat),
      (scanComplete ((keyedFrags (mkFrags a pieces)).filter
          (fun p => decide (p.1 ∈ S))) a
        = some (a + piecesTotal pieces)
       ↔ ∀ f ∈ mkFrags a pieces, f.1 ∈ S) := by
  induction pieces with
  | nil =>
      intro a S
      simp [mkFrags, keyedFrags, scanComplete, piecesTotal]
  | cons p0 rest ih =>
      intro a S
      have hp' : ∀ p ∈ rest, p ≠ [] := fun p h => hp p (by simp [h])
      have hp0l : 1 ≤ p0.length := List.length_pos.mpr (hp p0 (by simp))
      have hrest : ∀ q ∈ keyedFrags (mkFrags (a + p0.length) rest), a < q.1 := by
        intro q hq
        have := keyed_lb rest (a + p0.length) q hq
        omega
      have hkeyed : keyedFrags (mkFrags a (p0 :: rest))
          = (a, p0) :: keyedFrags (mkFrags (a + p0.length) rest) := by
        simp [mkFrags, keyedFrags]
      have htotal : piecesTotal (p0 :: rest) = p0.length + piecesTotal rest := by
        simp [piecesTotal]
      rw [hkeyed, List.filter_cons]
      by_cases haS : a ∈ S
      · rw [if_pos (by simpa using haS)]
        rw [show scanComplete ((a, p0) ::
            (keyedFrags (mkFrags (a + p0.length) rest)).filter
              (fun p => decide (p.1 ∈ S))) a
          = scanComplete ((keyedFrags (mkFrags (a + p0.length) rest)).filter
              (fun p => decide (p.1 ∈ S))) (a + p0.length) from by
            simp [scanComplete]]
        have := ih hp' (a + p0.length) S
        constructor
        · intro h
          have harg : scanComplete ((keyedFrags (mkFrags (a + p0.length) rest)).filter
              (fun p => decide (p.1 ∈ S))) (a + p0.length)
              = some (a + p0.length + piecesTotal rest) := by
            rw [htotal] at h
            rw [h]
            congr 1
            omega
          have hall := this.mp harg
          intro f hf
          simp only [mkFrags, List.mem_cons] at hf
          rcases hf with hf | hf
          · subst hf; exact haS
          · exact hall f hf
        · intro hall
          have harg : ∀ f ∈ mkFrags (a + p0.length) rest, f.1 ∈ S := by
            intro f hf
            exact hall f (by simp [mkFrags, hf])
          have := this.mpr harg
          rw [this]
          congr 1
          rw [htotal]
          omega
      · rw [if_neg (by simpa using haS)]
        constructor
        · intro h
          exfalso
          cases hfl : (keyedFrags (mkFrags (a + p0.length) rest)).filter
              (fun p => decide (p.1 ∈ S)) with
          | nil =>
              rw [hfl] at h
              simp only [scanComplete, Option.some.injEq] at h
              omega
          | cons q qs =>
              rw [hfl] at h
              have hq : a < q.1 := hrest q (List.mem_of_mem_filter (hfl ▸ List.mem_cons_self q qs))
              simp only [scanComplete] at h
              rw [if_neg (by omega)] at h
              exact Option.noConfusion h
        · intro hall
          exfalso
          exact haS (hall (a, !rest.isEmpty, p0) (by simp [mkFrags]))


/-- Helper: a nonempty packet has an MF=0 fragment. -/
theorem mkFrags_mf_exists (pieces : List (List Nat)) (hne : pieces ≠ []) :
    ∀ a, ∃ o d, (o, false, d) ∈ mkFrags a pieces := by
  induction pieces with
  | nil => exact absurd rfl hne
  | cons p0 rest ih =>
      intro a
      by_cases hrest : rest = []
      · subst hrest
        exact ⟨a, p0, by simp [mkFrags]⟩
      · obtain ⟨o, d, hm⟩ := ih hrest (a + p0.length)
        exact ⟨o, d, by simp [mkFrags, hm]⟩

/-- Helper: a nonempty packet of nonempty pieces has positive length. -/
theorem piecesTotal_pos (pieces : List (List Nat)) (hne : pieces ≠ [])
    (hp : ∀ p ∈ pieces, p ≠ []) : 0 < piecesTotal pieces := by
  cases pieces with
  | nil => exact absurd rfl hne
  | cons p0 rest =>
      have : 1 ≤ p0.length := List.length_pos.mpr (hp p0 (by simp))
      simp only [piecesTotal, List.map_cons, List.sum_cons]
      omega

/-- Helper: one `process_fragment` call under the invariant: the arrival
completing the offset cover dispatches the reassembled packet and deletes
the buffer; any other arrival re-establishes the invariant. -/
theorem c4_step (pieces : List (List Nat)) (hne : pieces ≠ [])
    (hp : ∀ p ∈ pieces, p ≠ [])
    (processed : List Frag) (f : Frag) (st : FragState)
    (hf : f ∈ mkFrags 0 pieces)
    (hsub : ∀ g ∈ processed, g ∈ mkFrags 0 pieces)
    (hfresh : f.1 ∉ offsOf processed)
    (hinv : c4Inv pieces processed st) :
    ((∀ g ∈ mkFrags 0 pieces, g.1 ∈ offsOf (processed ++ [f])) →
      processFragment f.1 f.2.1 f.2.2 st
        = { buffer := none, dispatched := [pieces.flatten] }) ∧
    ((¬ ∀ g ∈ mkFrags 0 pieces, g.1 ∈ offsOf (processed ++ [f])) →
      c4Inv pieces (processed ++ [f]) (processFragment f.1 f.2.1 f.2.2 st)) := by
  obtain ⟨o, mf, d⟩ := f
  obtain ⟨hd0, hb0⟩ := hinv
  have hnodup := mkFrags_offs_nodup pieces hp 0
  have hkmem : ((o, d) : Nat × List Nat) ∈ keyedFrags (mkFrags 0 pieces) :=
    List.mem_map.mpr ⟨(o, mf, d), hf, rfl⟩
  -- the buffer contents before the call, uniform in `processed`
  have hbuf : (st.buffer.getD { fragments := [], totalLength := 0, receivedLength := 0 })
      = { fragments := (keyedFrags (mkFrags 0 pieces)).filter
            (fun p => decide (p.1 ∈ offsOf processed)),
          totalLength := if processed.any (fun g => !g.2.1) then piecesTotal pieces else 0,
          receivedLength := (processed.map (fun g => g.2.2.length)).sum } := by
    rw [hb0]
    cases hpe : processed with
    | nil =>
        simp [offsOf]
    | cons g gs =>
        simp [hpe]
  -- the inserted fragment map
  have hins : insertFrag o d ((keyedFrags (mkFrags 0 pieces)).filter
        (fun p => decide (p.1 ∈ offsOf processed)))
      = (keyedFrags (mkFrags 0 pieces)).filter
          (fun p => decide (p.1 ∈ offsOf (processed ++ [(o, mf, d)]))) := by
    rw [insert_filter pieces hp 0 (offsOf processed) o d hkmem hfresh]
    apply List.filter_congr
    intro q _
    apply decide_eq_decide.mpr
    rw [show offsOf (processed ++ [(o, mf, d)]) = offsOf processed ++ [o] from by
      simp [offsOf]]
    simp only [List.mem_append, List.mem_cons, List.mem_singleton,
      List.not_mem_nil, or_false]
    exact Or.comm
  -- the MF=0 fragment of the packet
  obtain ⟨om, dm, hmfrag⟩ := mkFrags_mf_exists pieces hne 0
  have hLpos : 0 < piecesTotal pieces := piecesTotal_pos pieces hne hp
  have hinj : ∀ ⦃x⦄, x ∈ mkFrags 0 pieces → ∀ ⦃y⦄, y ∈ mkFrags 0 pieces →
      x.1 = y.1 → x = y := by
    have h := List.inj_on_of_nodup_map (f := fun g : Frag => g.1) (l := mkFrags 0 pieces)
    exact h hnodup
  constructor
  · intro hall
    -- the MF=0 fragment is among the arrivals, so total_length = L
    have hanyP : (processed ++ [(o, mf, d)]).any (fun g => !g.2.1) = true := by
      have hoffs : om ∈ offsOf (processed ++ [(o, mf, d)]) := hall (om, false, dm) hmfrag
      obtain ⟨g, hg, hgo⟩ := List.mem_map.mp hoffs
      have hgfull : g ∈ mkFrags 0 pieces := by
        rcases List.mem_append.mp hg with h | h
        · exact hsub g h
        · simp only [List.mem_singleton] at h
          subst h
          exact hf
      have hgeq : g = (om, false, dm) := hinj hgfull hmfrag hgo
      refine List.any_eq_true.mpr ⟨g, hg, ?_⟩
      rw [hgeq]
      rfl
    have hscan : scanComplete ((keyedFrags (mkFrags 0 pieces)).filter
        (fun p => decide (p.1 ∈ offsOf (processed ++ [(o, mf, d)])))) 0
        = some (piecesTotal pieces) := by
      have := (scan_filter pieces hp 0 (offsOf (processed ++ [(o, mf, d)]))).mpr hall
      simpa using this
    have hfilterall : (keyedFrags (mkFrags 0 pieces)).filter
        (fun p => decide (p.1 ∈ offsOf (processed ++ [(o, mf, d)])))
        = keyedFrags (mkFrags 0 pieces) := by
      apply List.filter_eq_self.mpr
      intro p hpK
      obtain ⟨g, hg, hgp⟩ := List.mem_map.mp hpK
      have hpg : p.1 = g.1 := by rw [← hgp]
      have hpo : p.1 ∈ offsOf (processed ++ [(o, mf, d)]) := by
        rw [hpg]
        exact hall g hg
      simpa using hpo
    have hscanK : scanComplete (keyedFrags (mkFrags 0 pieces)) 0
        = some (piecesTotal pieces) := by
      rw [← hfilterall]
      exact hscan
    cases mf with
    | false =>
        have htot : o + d.length = piecesTotal pieces := by
          have := mkFrags_mf_end pieces 0 o d hf
          omega
        simp [processFragment, hbuf, hins, htot, hscanK, hfilterall, hd0,
          keyed_payloads pieces 0, hLpos]
    | true =>
        have hanyPr : processed.any (fun g => !g.2.1) = true := by
          simpa using hanyP
        simp [processFragment, hbuf, hins, hanyPr, hscanK, hfilterall, hd0,
          keyed_payloads pieces 0, hLpos]
  · intro hnall
    have hscanNe : ∀ len, scanComplete ((keyedFrags (mkFrags 0 pieces)).filter
        (fun p => decide (p.1 ∈ offsOf (processed ++ [(o, mf, d)])))) 0 = some len →
        len ≠ piecesTotal pieces := by
      intro len hs hlen
      apply hnall
      subst hlen
      exact (scan_filter pieces hp 0 _).mp (by simpa using hs)
    have hpe : (processed ++ [(o, mf, d)]).isEmpty = false := by simp
    cases mf with
    | false =>
        have htot : o + d.length = piecesTotal pieces := by
          have := mkFrags_mf_end pieces 0 o d hf
          omega
        rcases hv : scanComplete ((keyedFrags (mkFrags 0 pieces)).filter
            (fun p => decide (p.1 ∈ offsOf (processed ++ [(o, false, d)])))) 0 with _ | len
        · refine ⟨by simp [processFragment, hbuf, hins, htot, hLpos, hv, hd0], ?_⟩
          simp [processFragment, hbuf, hins, htot, hLpos, hv, hpe, c4Inv]
        · have hne' := hscanNe len hv
          refine ⟨by simp [processFragment, hbuf, hins, htot, hLpos, hv, hne', hd0], ?_⟩
          simp [processFragment, hbuf, hins, htot, hLpos, hv, hne', hpe, c4Inv]
    | true =>
        by_cases hA : processed.any (fun g => !g.2.1) = true
        · rcases hv : scanComplete ((keyedFrags (mkFrags 0 pieces)).filter
              (fun p => decide (p.1 ∈ offsOf (processed ++ [(o, true, d)])))) 0 with _ | len
          · refine ⟨by simp [processFragment, hbuf, hins, hA, hLpos, hv, hd0], ?_⟩
            simp [processFragment, hbuf, hins, hA, hLpos, hv, hpe, c4Inv]
          · have hne' := hscanNe len hv
            refine ⟨by simp [processFragment, hbuf, hins, hA, hLpos, hv, hne', hd0], ?_⟩
            simp [processFragment, hbuf, hins, hA, hLpos, hv, hne', hpe, c4Inv]
        · have hA' : processed.any (fun g => !g.2.1) = false := by
            cases h : processed.any (fun g => !g.2.1)
            · rfl
            · exact absurd h hA
          refine ⟨by simp [processFragment, hbuf, hins, hA', hd0], ?_⟩
          simp [processFragment, hbuf, hins, hA', hpe, c4Inv]


/-- Helper: feeding the remaining fragments of a permutation of the
packet through `process_fragment` from any invariant state ends with the
reassembled packet dispatched and the buffer deleted. -/
theorem c4_run (pieces : List (List Nat)) (hne : pieces ≠ [])
    (hp : ∀ p ∈ pieces, p ≠ []) :
    ∀ (remaining processed : List Frag) (st : FragState),
      (processed ++ remaining).Perm (mkFrags 0 pieces) →
      remaining ≠ [] →
      c4Inv pieces processed st →
      processFrags remaining st = { buffer := none, dispatched := [pieces.flatten] } := by
  intro remaining
  induction remaining with
  | nil => intro processed st _ hne' _; exact absurd rfl hne'
  | cons f rest ih =>
      intro processed st hperm _ hinv
      have hfull : ∀ g ∈ processed ++ f :: rest, g ∈ mkFrags 0 pieces :=
        fun g hg => hperm.mem_iff.mp hg
      have hf : f ∈ mkFrags 0 pieces := hfull f (by simp)
      have hsub : ∀ g ∈ processed, g ∈ mkFrags 0 pieces :=
        fun g hg => hfull g (List.mem_append_left _ hg)
      have hnodupArr : (offsOf (processed ++ f :: rest)).Nodup := by
        have hnd := mkFrags_offs_nodup pieces hp 0
        have hpm : (offsOf (processed ++ f :: rest)).Perm (offsOf (mkFrags 0 pieces)) :=
          hperm.map _
        exact hpm.nodup_iff.mpr hnd
      have hsplit : offsOf (processed ++ f :: rest)
          = offsOf (processed ++ [f]) ++ offsOf rest := by
        simp [offsOf]
      have hfresh : f.1 ∉ offsOf processed := by
        intro hmem
        have hnd2 := hnodupArr
        rw [show offsOf (processed ++ f :: rest)
            = offsOf processed ++ f.1 :: offsOf rest from by simp [offsOf]] at hnd2
        have hdisj := List.disjoint_of_nodup_append hnd2
        exact hdisj hmem (by simp)
      cases rest with
      | nil =>
          have hall : ∀ g ∈ mkFrags 0 pieces, g.1 ∈ offsOf (processed ++ [f]) := by
            intro g hg
            have hmem : g ∈ processed ++ [f] := hperm.mem_iff.mpr hg
            exact List.mem_map.mpr ⟨g, hmem, rfl⟩
          have hstep := (c4_step pieces hne hp processed f st hf hsub hfresh hinv).1 hall
          simpa [processFrags] using hstep
      | cons f2 rest2 =>
          have hnall : ¬ ∀ g ∈ mkFrags 0 pieces, g.1 ∈ offsOf (processed ++ [f]) := by
            intro hallc
            have hf2 : f2 ∈ mkFrags 0 pieces := hfull f2 (by simp)
            have h2 := hallc f2 hf2
            have hnd2 := hnodupArr
            rw [show offsOf (processed ++ f :: f2 :: rest2)
                = offsOf (processed ++ [f]) ++ offsOf (f2 :: rest2) from by
              simp [offsOf]] at hnd2
            have hdisj := List.disjoint_of_nodup_append hnd2
            exact hdisj h2 (by simp [offsOf])
          have hstep := (c4_step pieces hne hp processed f st hf hsub hfresh hinv).2 hnall
          have hperm' : ((processed ++ [f]) ++ f2 :: rest2).Perm (mkFrags 0 pieces) := by
            have : (processed ++ [f]) ++ f2 :: rest2 = processed ++ f :: f2 :: rest2 := by
              simp
            rw [this]
            exact hperm
          have := ih (processed ++ [f])
            (processFragment f.1 f.2.1 f.2.2 st) hperm' (by simp) hstep
          simpa [processFrags] using this


/-- C4: fragments of one key tiling `[0, L)` contiguously (pieces of a
packet, MF clear exactly on the one ending at L), arriving in any order:
when the last of them arrives, the reassembled packet — of length exactly
L, equal to the concatenation of the payloads in ascending offset order —
is dispatched to the registered protocol handler and the fragment buffer
is deleted. -/
theorem ip_reassembly_dispatches (pieces : List (List Nat)) (arrival : List Frag)
    (hne : pieces ≠ []) (hp : ∀ p ∈ pieces, p ≠ [])
    (hperm : arrival.Perm (mkFrags 0 pieces)) :
    processFrags arrival fragInit = { buffer := none, dispatched := [pieces.flatten] } ∧
    pieces.flatten.length = piecesTotal pieces := by
  constructor
  · have harrne : arrival ≠ [] := by
      have hlen := hperm.length_eq
      cases hpieces : pieces with
      | nil => exact absurd hpieces hne
      | cons p0 rest =>
          rw [hpieces] at hlen
          simp only [mkFrags, List.length_cons] at hlen
          intro hnil
          rw [hnil] at hlen
          simp at hlen
    exact c4_run pieces hne hp arrival [] fragInit (by simpa using hperm) harrne
      (by simp [c4Inv, fragInit, offsOf])
  · simp [piecesTotal]

/-- C4 witness: the packet "GET " cut into pieces [71], [69, 84], [32]
arriving as offsets 3, 0, 1 — reassembled to [71, 69, 84, 32], buffer
gone. -/
theorem ip_reassembly_dispatches_witness :
    ([[71], [69, 84], [32]] : List (List Nat)) ≠ [] ∧
    processFrags [(3, false, [32]), (0, true, [71]), (1, true, [69, 84])] fragInit
      = { buffer := none, dispatched := [[71, 69, 84, 32]] } := by
  constructor
  · decide
  · exact (ip_reassembly_dispatches [[71], [69, 84], [32]]
      [(3, false, [32]), (0, true, [71]), (1, true, [69, 84])]
      (by decide) (by decide) (by decide)).1

/-! ## C10: the prune pass stays within the recorded levels -/

/-- Lookup ignores the removal of a different key. -/
theorem find_key_filter (h : THeap) (f g : Nat) (hne : g ≠ f) :
    (h.filter (fun p => p.1 ≠ f)).find? (fun p => p.1 = g)
      = h.find? (fun p => p.1 = g) := by
  induction h with
  | nil => rfl
  | cons a t ih =>
    by_cases ha : a.1 = f
    · have hag : ¬ a.1 = g := fun hg => hne (hg ▸ ha)
      rw [List.filter_cons, if_neg (by simp [ha]), ih,
        List.find?_cons_of_neg _ (by simp [hag])]
    · by_cases hag : a.1 = g
      · rw [List.filter_cons, if_pos (by simp [ha]),
          List.find?_cons_of_pos _ (by simp [hag]),
          List.find?_cons_of_pos _ (by simp [hag])]
      · rw [List.filter_cons, if_pos (by simp [ha]),
          List.find?_cons_of_neg _ (by simp [hag]),
          List.find?_cons_of_neg _ (by simp [hag]), ih]

/-- Reading a frame other than the one just stored. -/
theorem lookupT_setTable_ne (h : THeap) (f lvl : Nat) (T : PTable) (g : Nat)
    (hne : g ≠ f) : lookupT (setTable h f lvl T) g = lookupT h g := by
  unfold lookupT setTable
  rw [List.find?_cons_of_neg _
      (by simp only [decide_eq_true_eq]; exact fun hg => hne hg.symm),
    find_key_filter h f g hne]

/-- Reading back the frame just stored. -/
theorem lookupT_setTable_self (h : THeap) (f lvl : Nat) (T : PTable) :
    lookupT (setTable h f lvl T) f = some (lvl, T) := by
  unfold lookupT setTable
  rw [List.find?_cons_of_pos _ (by simp)]
  rfl

theorem getTable_setTable_ne (h : THeap) (f lvl : Nat) (T : PTable) (g : Nat)
    (hne : g ≠ f) : getTable (setTable h f lvl T) g = getTable h g := by
  unfold getTable
  rw [lookupT_setTable_ne h f lvl T g hne]

theorem getLevel_setTable_ne (h : THeap) (f lvl : Nat) (T : PTable) (g : Nat)
    (hne : g ≠ f) : getLevel (setTable h f lvl T) g = getLevel h g := by
  unfold getLevel
  rw [lookupT_setTable_ne h f lvl T g hne]

theorem getLevel_setTable_self (h : THeap) (f lvl : Nat) (T : PTable) :
    getLevel (setTable h f lvl T) f = some lvl := by
  unfold getLevel
  rw [lookupT_setTable_self h f lvl T]
  rfl

/-- A frame with a recorded level is a binding of the heap. -/
theorem getLevel_some (h : THeap) (f lvl : Nat)
    (hg : getLevel h f = some lvl) : lookupT h f = some (lvl, getTable h f) := by
  unfold getLevel at hg
  unfold getTable
  cases hf : lookupT h f with
  | none => rw [hf] at hg; simp at hg
  | some pr =>
    rw [hf] at hg
    simp only [Option.map_some'] at hg
    cases pr with
    | mk l T => simp_all

theorem lookupT_mem (h : THeap) (f : Nat) (pr : Nat × PTable)
    (hl : lookupT h f = some pr) : (f, pr.1, pr.2) ∈ h := by
  unfold lookupT at hl
  cases hf : h.find? (fun p => p.1 = f) with
  | none => rw [hf] at hl; simp at hl
  | some a =>
    rw [hf] at hl
    simp only [Option.map_some', Option.some.injEq] at hl
    have hmem := List.mem_of_find?_eq_some hf
    have hpred := List.find?_some hf
    simp only [decide_eq_true_eq] at hpred
    obtain ⟨a1, a2⟩ := a
    simp only at hpred hl
    subst hpred
    rw [← hl]
    exact hmem

theorem getLevel_mem (h : THeap) (f lvl : Nat)
    (hg : getLevel h f = some lvl) : (f, lvl, getTable h f) ∈ h :=
  lookupT_mem h f (lvl, getTable h f) (getLevel_some h f lvl hg)

/-- A present entry read out of a table is one of its bindings. -/
theorem getE_present_mem (T : PTable) (i : Nat)
    (hp : (getE T i).present = true) : (i, getE T i) ∈ T := by
  unfold getE at hp ⊢
  cases hf : T.find? (fun p => p.1 = i) with
  | none => rw [hf] at hp; simp [PTE.zero] at hp
  | some a =>
    have hmem := List.mem_of_find?_eq_some hf
    have hpred := List.find?_some hf
    simp only [decide_eq_true_eq] at hpred
    obtain ⟨a1, a2⟩ := a
    simp only [Option.map_some', Option.getD_some]
    subst hpred
    exact hmem

/-- A table holding a present entry does not scan as empty. -/
theorem tableEmpty_false (T : PTable) (i : Nat) (e : PTE)
    (hmem : (i, e) ∈ T) (hp : e.present = true) : tableEmpty T = false := by
  cases hT : tableEmpty T with
  | false => rfl
  | true =>
    unfold tableEmpty at hT
    rw [List.all_eq_true] at hT
    have := hT (i, e) hmem
    simp [hp] at this

theorem mem_setTable {h : THeap} {f lvl : Nat} {T : PTable}
    {q : Nat × Nat × PTable} (hq : q ∈ setTable h f lvl T) :
    q = (f, lvl, T) ∨ q ∈ h := by
  simp only [setTable, List.mem_cons] at hq
  rcases hq with h1 | h1
  · exact Or.inl h1
  · exact Or.inr (List.mem_of_mem_filter h1)

theorem mem_setE {T : PTable} {i : Nat} {e : PTE} {p : Nat × PTE}
    (hp : p ∈ setE T i e) : p = (i, e) ∨ p ∈ T := by
  simp only [setE, List.mem_cons] at hp
  rcases hp with h1 | h1
  · exact Or.inl h1
  · exact Or.inr (List.mem_of_mem_filter h1)

/-- Following a present entry of a well-formed walk drops exactly one
level and strictly increases the frame number. -/
theorem wf_step (s : VMState) (hwf : WFState s) (f lvl lvl' i : Nat)
    (hg : getLevel s.heap f = some lvl) (hl : lvl = lvl' + 1)
    (hp : (getE (getTable s.heap f) i).present = true) :
    getLevel s.heap (getE (getTable s.heap f) i).addr = some lvl' ∧
    f < (getE (getTable s.heap f) i).addr := by
  have hmemq := getLevel_mem s.heap f lvl hg
  have hmemp := getE_present_mem (getTable s.heap f) i hp
  have := hwf.2.2 _ hmemq _ hmemp hp (show 1 ≤ lvl by omega)
  simpa [hl] using this

/-- Overwriting a level-0 table (with any contents) preserves
well-formedness: level-0 entries carry no pointer obligations, and the
level map of the heap is unchanged. -/
theorem wf_set_level0 (s : VMState) (hwf : WFState s) (t0 : Nat) (cT : PTable)
    (hg0 : getLevel s.heap t0 = some 0) :
    WFState { s with heap := setTable s.heap t0 0 cT } := by
  obtain ⟨hbnd, hpml, hto⟩ := hwf
  have hlev : ∀ x, getLevel (setTable s.heap t0 0 cT) x = getLevel s.heap x := by
    intro x
    by_cases hx : x = t0
    · rw [hx, getLevel_setTable_self, hg0]
    · exact getLevel_setTable_ne s.heap t0 0 cT x hx
  refine ⟨?_, ?_, ?_⟩
  · intro q hq
    rcases mem_setTable hq with h | h
    · have := hbnd _ (getLevel_mem s.heap t0 0 hg0)
      rw [h]
      exact this
    · exact hbnd q h
  · rw [hlev]
    exact hpml
  · intro q hq p hp hpres hlvl
    rcases mem_setTable hq with h | h
    · subst h
      simp at hlvl
    · have := hto q h p hp hpres hlvl
      exact ⟨by rw [hlev]; exact this.1, this.2⟩

/-- `get_next_table` preserves well-formedness and returns a frame of the
next-lower level, never touching the PML4 root pointer. -/
theorem wf_ensureChild (s : VMState) (hwf : WFState s) (f lvl lvl' idx : Nat)
    (hg : getLevel s.heap f = some lvl) (hl : lvl = lvl' + 1) :
    WFState (ensureChild s f lvl idx).1 ∧
    getLevel (ensureChild s f lvl idx).1.heap (ensureChild s f lvl idx).2
      = some lvl' ∧
    (ensureChild s f lvl idx).1.pml4 = s.pml4 := by
  subst hl
  obtain ⟨hbnd, hpml, hto⟩ := hwf
  simp only [ensureChild]
  split
  next hp =>
    exact ⟨⟨hbnd, hpml, hto⟩,
      (wf_step s ⟨hbnd, hpml, hto⟩ f (lvl' + 1) lvl' idx hg rfl hp).1, rfl⟩
  next hp =>
    have hfmem := getLevel_mem s.heap f (lvl' + 1) hg
    have hflt : f < s.nextFrame := hbnd _ hfmem
    have hfne : f ≠ s.nextFrame := by omega
    have hpmem := getLevel_mem s.heap s.pml4 3 hpml
    have hplt : s.pml4 < s.nextFrame := hbnd _ hpmem
    have hlev : ∀ (T : PTable) (x : Nat),
        getLevel (setTable (setTable s.heap s.nextFrame (lvl' + 1 - 1) [])
          f (lvl' + 1) T) x
        = if x = s.nextFrame then some lvl' else getLevel s.heap x := by
      intro T x
      by_cases hx : x = s.nextFrame
      · subst hx
        rw [if_pos rfl, getLevel_setTable_ne _ _ _ _ _ (Ne.symm hfne),
          getLevel_setTable_self]
        simp
      · rw [if_neg hx]
        by_cases hxf : x = f
        · subst hxf
          rw [getLevel_setTable_self, hg]
        · rw [getLevel_setTable_ne _ _ _ _ _ hxf,
            getLevel_setTable_ne _ _ _ _ _ hx]
    refine ⟨⟨?_, ?_, ?_⟩, ?_, rfl⟩
    · intro q hq
      rcases mem_setTable hq with h | h
      · rw [h]
        simp only
        omega
      · rcases mem_setTable h with h' | h'
        · rw [h']
          simp only
          omega
        · have := hbnd q h'
          simp only
          omega
    · show getLevel _ s.pml4 = some 3
      rw [hlev, if_neg (by omega)]
      exact hpml
    · intro q hq p hp hpres hlvl
      rcases mem_setTable hq with hcase | hcase
      · subst hcase
        rcases mem_setE hp with hpe | hpe
        · subst hpe
          refine ⟨?_, ?_⟩
          · rw [hlev, if_pos rfl]
            simp
          · simpa using hflt
        · have hold := hto _ hfmem p hpe hpres (show 1 ≤ lvl' + 1 by omega)
          have haddr : p.2.addr < s.nextFrame :=
            hbnd _ (getLevel_mem s.heap p.2.addr _ hold.1)
          refine ⟨?_, hold.2⟩
          rw [hlev, if_neg (by omega)]
          exact hold.1
      · rcases mem_setTable hcase with hcase' | hcase'
        · subst hcase'
          exact absurd hp (List.not_mem_nil p)
        · have hold := hto q hcase' p hp hpres hlvl
          have haddr : p.2.addr < s.nextFrame :=
            hbnd _ (getLevel_mem s.heap p.2.addr _ hold.1)
          refine ⟨?_, hold.2⟩
          rw [hlev, if_neg (by omega)]
          exact hold.1
    · show getLevel _ s.nextFrame = some lvl'
      rw [hlev, if_pos rfl]

/-- `map_page_internal` preserves well-formedness. -/
theorem wf_mapPage (s : VMState) (hwf : WFState s) (v p : Nat)
    (fl : MapFlags) : WFState (mapPage s v p fl).1 := by
  simp only [mapPage]
  split
  · exact hwf
  · have h3 := wf_ensureChild s hwf s.pml4 3 2 (vIdx v 3) hwf.2.1 rfl
    have h2 := wf_ensureChild (ensureChild s s.pml4 3 (vIdx v 3)).1 h3.1
      (ensureChild s s.pml4 3 (vIdx v 3)).2 2 1 (vIdx v 2) h3.2.1 rfl
    have h1 := wf_ensureChild
      (ensureChild (ensureChild s s.pml4 3 (vIdx v 3)).1
        (ensureChild s s.pml4 3 (vIdx v 3)).2 2 (vIdx v 2)).1 h2.1
      (ensureChild (ensureChild s s.pml4 3 (vIdx v 3)).1
        (ensureChild s s.pml4 3 (vIdx v 3)).2 2 (vIdx v 2)).2 1 0
      (vIdx v 1) h2.2.1 rfl
    split
    · exact h1.1
    · exact wf_set_level0 _ h1.1 _ _ h1.2.1

/-- When the three scanned tables are all non-empty, the prune loop of
`unmap_page_internal` is the identity: nothing is freed and no parent
index is touched. -/
theorem prune_noop (s1 : VMState) (tables indices : List Nat)
    (hne : ∀ j ∈ ([1, 2, 3] : List Nat),
      tableEmpty (getTable s1.heap (tables.getD j 0)) = false) :
    List.foldl (pruneStep tables indices) (s1, ([], false)) [1, 2, 3]
      = (s1, ([], false)) := by
  have key : ∀ j ∈ ([1, 2, 3] : List Nat),
      pruneStep tables indices (s1, ([], false)) j = (s1, ([], false)) := by
    intro j hj
    simp only [pruneStep, hne j hj]
    simp
  rw [List.foldl_cons, key 1 (by simp), List.foldl_cons, key 2 (by simp),
    List.foldl_cons, key 3 (by simp), List.foldl_nil]

/-- On any well-formed state, `unmap_page_internal` frees no table
frames, never goes out of bounds in the prune pass, and preserves
well-formedness: the walked chain PML4 → PDPT → PD → PT has strictly
increasing frame numbers, so clearing the leaf in the PT leaves the
present chain entries of the three upper tables intact, and the prune
scan finds every one of them non-empty. -/
theorem wf_unmapPage (s : VMState) (hwf : WFState s) (v : Nat) :
    (unmapPage s v).2.freedTables = [] ∧ (unmapPage s v).2.oob = false ∧
    WFState (unmapPage s v).1 := by
  simp only [unmapPage]
  split
  · exact ⟨rfl, rfl, hwf⟩
  split
  next h3 => exact ⟨rfl, rfl, hwf⟩
  next h3 =>
  split
  next h2 => exact ⟨rfl, rfl, hwf⟩
  next h2 =>
  split
  next h1 => exact ⟨rfl, rfl, hwf⟩
  next h1 =>
  split
  next h0 => exact ⟨rfl, rfl, hwf⟩
  next h0 =>
  have e3p : (getE (getTable s.heap s.pml4) (vIdx v 3)).present = true := by
    simpa using h3
  have w3 := wf_step s hwf s.pml4 3 2 (vIdx v 3) hwf.2.1 rfl e3p
  have e2p : (getE (getTable s.heap
      (getE (getTable s.heap s.pml4) (vIdx v 3)).addr)
      (vIdx v 2)).present = true := by simpa using h2
  have w2 := wf_step s hwf _ 2 1 (vIdx v 2) w3.1 rfl e2p
  have e1p : (getE (getTable s.heap
      (getE (getTable s.heap
        (getE (getTable s.heap s.pml4) (vIdx v 3)).addr)
        (vIdx v 2)).addr)
      (vIdx v 1)).present = true := by simpa using h1
  have w1 := wf_step s hwf _ 1 0 (vIdx v 1) w2.1 rfl e1p
  set t2 : Nat := (getE (getTable s.heap s.pml4) (vIdx v 3)).addr with ht2
  set t1 : Nat := (getE (getTable s.heap t2) (vIdx v 2)).addr with ht1
  set t0 : Nat := (getE (getTable s.heap t1) (vIdx v 1)).addr with ht0
  have hlvl0 : (getLevel s.heap t0).getD 0 = 0 := by rw [w1.1]; rfl
  rw [hlvl0]
  have hne1 : t1 ≠ t0 := by omega
  have hne2 : t2 ≠ t0 := by omega
  have hne3 : s.pml4 ≠ t0 := by omega
  set cT : PTable := setE (getTable s.heap t0) (vIdx v 0) PTE.zero with hcT
  set s1e : VMState := { s with heap := setTable s.heap t0 0 cT } with hs1
  have hfold : List.foldl
      (pruneStep [t0, t1, t2, s.pml4] [vIdx v 0, vIdx v 1, vIdx v 2, vIdx v 3])
      (s1e, ([], false)) [1, 2, 3] = (s1e, ([], false)) := by
    refine prune_noop _ _ _ ?_
    intro j hj
    fin_cases hj
    · simp only [List.getD_cons_succ, List.getD_cons_zero, hs1]
      rw [getTable_setTable_ne _ _ _ _ _ hne1]
      exact tableEmpty_false _ _ _ (getE_present_mem _ _ e1p) e1p
    · simp only [List.getD_cons_succ, List.getD_cons_zero, hs1]
      rw [getTable_setTable_ne _ _ _ _ _ hne2]
      exact tableEmpty_false _ _ _ (getE_present_mem _ _ e2p) e2p
    · simp only [List.getD_cons_succ, List.getD_cons_zero, hs1]
      rw [getTable_setTable_ne _ _ _ _ _ hne3]
      exact tableEmpty_false _ _ _ (getE_present_mem _ _ e3p) e3p
  rw [hfold]
  refine ⟨rfl, rfl, ?_⟩
  rw [hs1]
  exact wf_set_level0 s ⟨hwf.1, hwf.2.1, hwf.2.2⟩ t0 cT w1.1

/-- Every state reachable by map/unmap calls from the fresh kernel
address space is well-formed. -/
theorem wf_applyOps (ops : List VMOp) :
    ∀ s, WFState s → WFState (applyOps ops s) := by
  induction ops with
  | nil => intro s h; exact h
  | cons op rest ih =>
    intro s h
    cases op with
    | map v p fl => exact ih _ (wf_mapPage s h v p fl)
    | unmap v => exact ih _ (wf_unmapPage s h v).2.2

/-- The fresh kernel address space is well-formed. -/
theorem wf_vmInit : WFState vmInit := by
  unfold WFState
  decide

/-- C10: for every `unmap_page` call on any state reachable from the
fresh address space, the pruning pass over emptied intermediate tables
stays within the four page-table levels recorded during the walk (no
`tables[i + 1]` access with `i + 1` past the end of the recorded
arrays), and the top-level PML4 table is never freed by the unmap. -/
theorem unmap_prune_within_recorded_levels (ops : List VMOp) (v : Nat) :
    (unmapPage (applyOps ops vmInit) v).2.oob = false ∧
    (applyOps ops vmInit).pml4
      ∉ (unmapPage (applyOps ops vmInit) v).2.freedTables := by
  have hwf := wf_applyOps ops vmInit wf_vmInit
  have h := wf_unmapPage (applyOps ops vmInit) hwf v
  refine ⟨h.2.1, ?_⟩
  rw [h.1]
  simp

end NK
